import Mathlib

/-!
# Verification of the cdcx-api arbitrage engine

Shallow embedding of the core of the `cdcx-api` repository in Lean 4 and
proofs about it.  Go `float64` arithmetic is modelled with exact rationals
(`ℚ`); API side effects (order placement, order-book fetches, exchange-rate
fetches) are modelled with explicit oracles and traces of emitted events.

Sources embedded:
* the order-book depth simulator `simulateArbitrageDepth` (depth analyzer),
* the quick depth analysis, real-time revalidation, per-attempt order
  execution, recovery logic and batch executor of `pkg/arbitrage/engine.go`,
* the live detector's lock-guarded execution path of `pkg/opportunity/live.go`,
* the rate cache of `pkg/exchange/rate_manager.go`,
* the market-universe builder `ExtractArbitragePairs` of the pairs analyzer.
-/

set_option maxHeartbeats 1000000

namespace Cdcx

/-- One normalized order-book level (Go `types.OrderBookLevel`); only the
fields read by the depth walk are kept: `PriceINR` and `Volume`. -/
structure OrderBookLevel where
  priceINR : ℚ
  volume : ℚ
deriving Repr, DecidableEq

/-- One simulated fill record (Go `types.OrderSimulation`); `Cumulative`
sub-struct is flattened into the `cum*` fields. -/
structure OrderSimulation where
  orderNumber : Nat
  buyPrice : ℚ
  sellPrice : ℚ
  volume : ℚ
  volumeINR : ℚ
  grossMargin : ℚ
  grossMarginPct : ℚ
  estimatedFees : ℚ
  netMargin : ℚ
  netMarginPct : ℚ
  cumVolume : ℚ
  cumVolumeINR : ℚ
  cumNetProfit : ℚ
deriving Repr, DecidableEq

/-- The fill record appended by one profitable iteration of the loop body of
`simulateArbitrageDepth` (depth analyzer): trade volume is the min of the two
current level volumes, fees are `tradeValueINR * feeRate`, and the cumulative
fields extend the accumulators passed in. -/
def mkFill (feeRate : ℚ) (orderNumber : Nat) (cumVolume cumVolumeINR cumNetProfit : ℚ)
    (buyLevel sellLevel : OrderBookLevel) : OrderSimulation :=
  let tradeableVolume := min buyLevel.volume sellLevel.volume
  let grossMargin := sellLevel.priceINR - buyLevel.priceINR
  let tradeValueINR := tradeableVolume * buyLevel.priceINR
  let estimatedFees := tradeValueINR * feeRate
  let netMargin := grossMargin * tradeableVolume - estimatedFees
  { orderNumber := orderNumber
    buyPrice := buyLevel.priceINR
    sellPrice := sellLevel.priceINR
    volume := tradeableVolume
    volumeINR := tradeValueINR
    grossMargin := grossMargin
    grossMarginPct := grossMargin / buyLevel.priceINR * 100
    estimatedFees := estimatedFees
    netMargin := netMargin
    netMarginPct := netMargin / tradeValueINR * 100
    cumVolume := cumVolume + tradeableVolume
    cumVolumeINR := cumVolumeINR + tradeValueINR
    cumNetProfit := cumNetProfit + netMargin }

/-- Result of the cursor walk of `simulateArbitrageDepth`: the recorded fills,
the unconsumed suffix of each side (the Go code's `buyLevelIdx >= len(...)`
test corresponds to the remaining suffix being empty) and the final values of
the three cumulative accumulators. -/
structure DepthWalkResult where
  fills : List OrderSimulation
  remAsks : List OrderBookLevel
  remBids : List OrderBookLevel
  cumVolume : ℚ
  cumVolumeINR : ℚ
  cumNetProfit : ℚ
deriving Repr, DecidableEq

/-- The main loop of `simulateArbitrageDepth`: walk the ask levels of the buy
book and the bid levels of the sell book.  Each iteration computes the fill
from the two current levels, breaks if `netMarginPct < minNetMargin`,
otherwise records the fill and advances the ask cursor when
`buyLevel.Volume <= sellLevel.Volume` and the bid cursor when
`sellLevel.Volume <= buyLevel.Volume` (both when equal).  Note the source
never decrements a level's volume after a partial fill; cursor advancement
compares the raw level volumes.

The extra `fuel` argument makes the recursion structural; every iteration
advances at least one cursor, so the caller's fuel `asks.length + bids.length`
is never exhausted before a cursor runs off its list. -/
def simulateDepthWalk (feeRate minNetMargin : ℚ) :
    Nat → List OrderBookLevel → List OrderBookLevel → Nat → ℚ → ℚ → ℚ → DepthWalkResult
  | _, [], bids, _, cv, ci, cp => ⟨[], [], bids, cv, ci, cp⟩
  | _, a :: asks, [], _, cv, ci, cp => ⟨[], a :: asks, [], cv, ci, cp⟩
  | 0, asks, bids, _, cv, ci, cp => ⟨[], asks, bids, cv, ci, cp⟩
  | fuel + 1, a :: asks, b :: bids, n, cv, ci, cp =>
    let fill := mkFill feeRate n cv ci cp a b
    if minNetMargin ≤ fill.netMarginPct then
      let rest :=
        if a.volume ≤ b.volume then
          if b.volume ≤ a.volume then
            simulateDepthWalk feeRate minNetMargin fuel asks bids (n + 1)
              fill.cumVolume fill.cumVolumeINR fill.cumNetProfit
          else
            simulateDepthWalk feeRate minNetMargin fuel asks (b :: bids) (n + 1)
              fill.cumVolume fill.cumVolumeINR fill.cumNetProfit
        else
          simulateDepthWalk feeRate minNetMargin fuel (a :: asks) bids (n + 1)
            fill.cumVolume fill.cumVolumeINR fill.cumNetProfit
      { rest with fills := fill :: rest.fills }
    else ⟨[], a :: asks, b :: bids, cv, ci, cp⟩

/-- The two (buy side, sell side) order books as seen by the depth analyzer
(Go `types.EnhancedOrderBook`); only the fields the simulator reads. -/
structure EnhancedOrderBook where
  askLevels : List OrderBookLevel
  bidLevels : List OrderBookLevel
  bestAskINR : ℚ
  bestBidINR : ℚ
deriving Repr, DecidableEq

/-- Depth analysis result (Go `types.ArbitrageDepthAnalysis`), restricted to
the fields the simulator writes. -/
structure ArbitrageDepthAnalysis where
  orderSimulations : List OrderSimulation
  maxProfitableOrders : Nat
  totalProfitableVolume : ℚ
  totalEstimatedProfit : ℚ
  bottleneckSide : String
  opportunityRating : String
deriving Repr, DecidableEq

/-- `simulateArbitrageDepth` (depth analyzer): early-return with a zero-value
analysis when `BestAskINR >= BestBidINR`; otherwise run the walk from the
start of both sides with order number 1 and zero accumulators, then classify
the bottleneck as `"buy"` when the ask cursor passed the end of the ask
levels and `"sell"` otherwise, and rate the opportunity by fill count. -/
def simulateArbitrageDepth (feeRate minNetMargin : ℚ)
    (buyMarket sellMarket : EnhancedOrderBook) : ArbitrageDepthAnalysis :=
  if sellMarket.bestBidINR ≤ buyMarket.bestAskINR then
    ⟨[], 0, 0, 0, "", ""⟩
  else
    let w := simulateDepthWalk feeRate minNetMargin
      (buyMarket.askLevels.length + sellMarket.bidLevels.length)
      buyMarket.askLevels sellMarket.bidLevels 1 0 0 0
    { orderSimulations := w.fills
      maxProfitableOrders := w.fills.length
      totalProfitableVolume := w.cumVolume
      totalEstimatedProfit := w.cumNetProfit
      bottleneckSide := if w.remAsks.isEmpty then "buy" else "sell"
      opportunityRating :=
        if 5 ≤ w.fills.length then "excellent"
        else if 3 ≤ w.fills.length then "good"
        else "poor" }

/-- Buy-side book of the spec's example scenario 3: ask levels
`[100@30, 102@40]`. -/
def scenario3BuyBook : EnhancedOrderBook :=
  ⟨[⟨100, 30⟩, ⟨102, 40⟩], [], 100, 0⟩

/-- Sell-side book of the spec's example scenario 3: bid levels
`[105@20, 103@50]`. -/
def scenario3SellBook : EnhancedOrderBook :=
  ⟨[], [⟨105, 20⟩, ⟨103, 50⟩], 0, 105⟩

/-- The same cursor walk with the profitability break removed: it records a
fill for every level pair visited until a cursor exhausts its list.  Used to
express that the thresholded walk stops at the first sub-threshold fill and
never skips ahead. -/
def simulateDepthWalkAll (feeRate : ℚ) :
    Nat → List OrderBookLevel → List OrderBookLevel → Nat → ℚ → ℚ → ℚ → DepthWalkResult
  | _, [], bids, _, cv, ci, cp => ⟨[], [], bids, cv, ci, cp⟩
  | _, a :: asks, [], _, cv, ci, cp => ⟨[], a :: asks, [], cv, ci, cp⟩
  | 0, asks, bids, _, cv, ci, cp => ⟨[], asks, bids, cv, ci, cp⟩
  | fuel + 1, a :: asks, b :: bids, n, cv, ci, cp =>
    let fill := mkFill feeRate n cv ci cp a b
    let rest :=
      if a.volume ≤ b.volume then
        if b.volume ≤ a.volume then
          simulateDepthWalkAll feeRate fuel asks bids (n + 1)
            fill.cumVolume fill.cumVolumeINR fill.cumNetProfit
        else
          simulateDepthWalkAll feeRate fuel asks (b :: bids) (n + 1)
            fill.cumVolume fill.cumVolumeINR fill.cumNetProfit
      else
        simulateDepthWalkAll feeRate fuel (a :: asks) bids (n + 1)
          fill.cumVolume fill.cumVolumeINR fill.cumNetProfit
    { rest with fills := fill :: rest.fills }

/-- Per-level-pair net margin percentage as computed inside the walk; it
depends only on the fee rate and the two current levels. -/
def levelNetMarginPct (feeRate : ℚ) (a b : OrderBookLevel) : ℚ :=
  let v := min a.volume b.volume
  ((b.priceINR - a.priceINR) * v - v * a.priceINR * feeRate) / (v * a.priceINR) * 100

theorem mkFill_netMarginPct (feeRate : ℚ) (n : Nat) (cv ci cp : ℚ) (a b : OrderBookLevel) :
    (mkFill feeRate n cv ci cp a b).netMarginPct = levelNetMarginPct feeRate a b := rfl

theorem levelNetMarginPct_eq (feeRate : ℚ) {a b : OrderBookLevel}
    (hav : 0 < a.volume) (hbv : 0 < b.volume) (hap : 0 < a.priceINR) :
    levelNetMarginPct feeRate a b = (b.priceINR / a.priceINR - 1 - feeRate) * 100 := by
  have hv : 0 < min a.volume b.volume := lt_min hav hbv
  have hne : min a.volume b.volume * a.priceINR ≠ 0 := by positivity
  unfold levelNetMarginPct
  field_simp
  ring

/-- Walking deeper can only worsen the per-fill net margin: a higher (or
equal) ask price and a lower (or equal) bid price give a lower (or equal)
net margin percentage. -/
theorem levelNetMarginPct_mono (feeRate : ℚ) {a a2 b b2 : OrderBookLevel}
    (hav : 0 < a.volume) (hbv : 0 < b.volume) (hap : 0 < a.priceINR)
    (ha2v : 0 < a2.volume) (hb2v : 0 < b2.volume) (ha2p : 0 < a2.priceINR)
    (hb2p : 0 < b2.priceINR)
    (hpa : a.priceINR ≤ a2.priceINR) (hpb : b2.priceINR ≤ b.priceINR) :
    levelNetMarginPct feeRate a2 b2 ≤ levelNetMarginPct feeRate a b := by
  rw [levelNetMarginPct_eq feeRate hav hbv hap, levelNetMarginPct_eq feeRate ha2v hb2v ha2p]
  have hdiv : b2.priceINR / a2.priceINR ≤ b.priceINR / a.priceINR :=
    div_le_div₀ (le_of_lt (lt_of_lt_of_le hb2p hpb)) hpb hap hpa
  nlinarith [hdiv]

/-- If the thresholded walk records any fill, the first one is the fill built
from the heads of the two lists. -/
theorem simulateDepthWalk_fills_head (feeRate minNetMargin : ℚ) (fuel : Nat)
    (asks bids : List OrderBookLevel) (n : Nat) (cv ci cp : ℚ) (g : OrderSimulation)
    (h : (simulateDepthWalk feeRate minNetMargin fuel asks bids n cv ci cp).fills.head? = some g) :
    ∃ a as b bs, asks = a :: as ∧ bids = b :: bs ∧
      g.netMarginPct = levelNetMarginPct feeRate a b := by
  match fuel, asks, bids with
  | _, [], bids => simp [simulateDepthWalk] at h
  | _, a :: asks, [] => simp [simulateDepthWalk] at h
  | 0, a :: asks, b :: bids => simp [simulateDepthWalk] at h
  | fuel + 1, a :: asks, b :: bids =>
    refine ⟨a, asks, b, bids, rfl, rfl, ?_⟩
    rw [simulateDepthWalk] at h
    by_cases hpct : minNetMargin ≤ (mkFill feeRate n cv ci cp a b).netMarginPct
    · simp only [hpct, if_pos] at h
      simp at h
      rw [← h, mkFill_netMarginPct]
    · simp only [hpct, if_neg, if_false] at h
      simp at h

/-- The fills recorded by the walk have non-increasing net margin
percentages, provided the ask side is sorted ascending, the bid side
descending, and all prices and volumes are positive (which is how the
analyzer builds its `EnhancedOrderBook`s). -/
theorem simulateDepthWalk_chain_anti (feeRate minNetMargin : ℚ) :
    ∀ (fuel : Nat) (asks bids : List OrderBookLevel) (n : Nat) (cv ci cp : ℚ),
    asks.Chain' (fun x y => x.priceINR ≤ y.priceINR) →
    bids.Chain' (fun x y => y.priceINR ≤ x.priceINR) →
    (∀ l ∈ asks, 0 < l.priceINR ∧ 0 < l.volume) →
    (∀ l ∈ bids, 0 < l.priceINR ∧ 0 < l.volume) →
    List.Chain' (fun f g => g.netMarginPct ≤ f.netMarginPct)
      (simulateDepthWalk feeRate minNetMargin fuel asks bids n cv ci cp).fills := by
  intro fuel
  induction fuel with
  | zero =>
    intro asks bids n cv ci cp _ _ _ _
    cases asks <;> cases bids <;> simp [simulateDepthWalk]
  | succ fuel ih =>
    intro asks bids n cv ci cp hA hB hAp hBp
    match asks, bids with
    | [], bids => simp [simulateDepthWalk]
    | a :: as, [] => simp [simulateDepthWalk]
    | a :: as, b :: bs =>
      rw [simulateDepthWalk]
      by_cases hpct : minNetMargin ≤ (mkFill feeRate n cv ci cp a b).netMarginPct
      · simp only [if_pos hpct]
        have hApTail : ∀ l ∈ as, 0 < l.priceINR ∧ 0 < l.volume :=
          fun l hl => hAp l (List.mem_cons_of_mem _ hl)
        have hBpTail : ∀ l ∈ bs, 0 < l.priceINR ∧ 0 < l.volume :=
          fun l hl => hBp l (List.mem_cons_of_mem _ hl)
        have hstep : ∀ (asks2 bids2 : List OrderBookLevel),
            asks2.Chain' (fun x y => x.priceINR ≤ y.priceINR) →
            bids2.Chain' (fun x y => y.priceINR ≤ x.priceINR) →
            (∀ l ∈ asks2, 0 < l.priceINR ∧ 0 < l.volume) →
            (∀ l ∈ bids2, 0 < l.priceINR ∧ 0 < l.volume) →
            (∀ a2 ∈ asks2.head?, a.priceINR ≤ a2.priceINR) →
            (∀ b2 ∈ bids2.head?, b2.priceINR ≤ b.priceINR) →
            List.Chain' (fun f g => g.netMarginPct ≤ f.netMarginPct)
              ((mkFill feeRate n cv ci cp a b) ::
                (simulateDepthWalk feeRate minNetMargin fuel asks2 bids2 (n + 1)
                  (mkFill feeRate n cv ci cp a b).cumVolume
                  (mkFill feeRate n cv ci cp a b).cumVolumeINR
                  (mkFill feeRate n cv ci cp a b).cumNetProfit).fills) := by
          intro asks2 bids2 hA2 hB2 hAp2 hBp2 hha hhb
          refine List.chain'_cons'.mpr ⟨?_, ih asks2 bids2 _ _ _ _ hA2 hB2 hAp2 hBp2⟩
          intro g hg
          obtain ⟨a2, as2, b2, bs2, heq1, heq2, hgp⟩ :=
            simulateDepthWalk_fills_head feeRate minNetMargin fuel asks2 bids2 (n + 1)
              _ _ _ g hg
          rw [hgp, mkFill_netMarginPct]
          have ha2 := hAp2 a2 (heq1 ▸ List.mem_cons_self a2 as2)
          have hb2 := hBp2 b2 (heq2 ▸ List.mem_cons_self b2 bs2)
          have hab := hAp a (List.mem_cons_self a as)
          have hbb := hBp b (List.mem_cons_self b bs)
          exact levelNetMarginPct_mono feeRate hab.2 hbb.2 hab.1 ha2.2 hb2.2 ha2.1 hb2.1
            (hha a2 (by rw [heq1]; rfl)) (hhb b2 (by rw [heq2]; rfl))
        by_cases h1 : a.volume ≤ b.volume
        · by_cases h2 : b.volume ≤ a.volume
          · simp only [if_pos h1, if_pos h2]
            refine hstep as bs hA.tail hB.tail hApTail hBpTail ?_ ?_
            · intro a2 ha2
              cases as with
              | nil => simp at ha2
              | cons x xs =>
                simp at ha2
                exact ha2 ▸ (List.chain'_cons.mp hA).1
            · intro b2 hb2
              cases bs with
              | nil => simp at hb2
              | cons x xs =>
                simp at hb2
                exact hb2 ▸ (List.chain'_cons.mp hB).1
          · simp only [if_pos h1, if_neg h2]
            refine hstep as (b :: bs) hA.tail hB hApTail hBp ?_ ?_
            · intro a2 ha2
              cases as with
              | nil => simp at ha2
              | cons x xs =>
                simp at ha2
                exact ha2 ▸ (List.chain'_cons.mp hA).1
            · intro b2 hb2
              simp at hb2
              exact hb2 ▸ le_refl _
        · simp only [if_neg h1]
          refine hstep (a :: as) bs hA hB.tail hAp hBpTail ?_ ?_
          · intro a2 ha2
            simp at ha2
            exact ha2 ▸ le_refl _
          · intro b2 hb2
            cases bs with
            | nil => simp at hb2
            | cons x xs =>
              simp at hb2
              exact hb2 ▸ (List.chain'_cons.mp hB).1
      · simp only [if_neg hpct]
        simp


/-- The thresholded walk records exactly the longest profitable prefix of the
unthresholded walk: it stops at the first fill whose net margin percentage is
below the minimum and never skips ahead. -/
theorem simulateDepthWalk_eq_takeWhile (feeRate minNetMargin : ℚ) :
    ∀ (fuel : Nat) (asks bids : List OrderBookLevel) (n : Nat) (cv ci cp : ℚ),
    (simulateDepthWalk feeRate minNetMargin fuel asks bids n cv ci cp).fills =
      List.takeWhile (fun f => decide (minNetMargin ≤ f.netMarginPct))
        (simulateDepthWalkAll feeRate fuel asks bids n cv ci cp).fills := by
  intro fuel
  induction fuel with
  | zero =>
    intro asks bids n cv ci cp
    cases asks <;> cases bids <;> simp [simulateDepthWalk, simulateDepthWalkAll]
  | succ fuel ih =>
    intro asks bids n cv ci cp
    match asks, bids with
    | [], bids => simp [simulateDepthWalk, simulateDepthWalkAll]
    | a :: as, [] => simp [simulateDepthWalk, simulateDepthWalkAll]
    | a :: as, b :: bs =>
      rw [simulateDepthWalk, simulateDepthWalkAll]
      by_cases hpct : minNetMargin ≤ (mkFill feeRate n cv ci cp a b).netMarginPct
      · simp only [if_pos hpct]
        by_cases h1 : a.volume ≤ b.volume
        · by_cases h2 : b.volume ≤ a.volume
          · simp only [if_pos h1, if_pos h2, List.takeWhile_cons, decide_eq_true hpct]
            simpa using ih as bs (n + 1) _ _ _
          · simp only [if_pos h1, if_neg h2, List.takeWhile_cons, decide_eq_true hpct]
            simpa using ih as (b :: bs) (n + 1) _ _ _
        · simp only [if_neg h1, List.takeWhile_cons, decide_eq_true hpct]
          simpa using ih (a :: as) bs (n + 1) _ _ _
      · simp only [if_neg hpct, List.takeWhile_cons]
        simp [hpct]

/-- **C1.** Spec example scenario 3 run on the source's depth simulator:
ask levels `[100@30, 102@40]`, bid levels `[105@20, 103@50]`, fee `2%`,
minimum net margin `0.5%`.  The code produces fill 1 with volume `20`
(ask 100 vs bid 105) but fill 2 with volume `30` — the walk never decrements
a level's volume after a partial fill, so the full 30 of the ask-100 level is
matched again against bid 103 — giving cumulative volume `50`, not the
`[20, 10]` / cumulative `30` the claim requires. -/
theorem claim_C1_scenario3_depth_walk :
    (simulateArbitrageDepth (2/100) (1/2) scenario3BuyBook scenario3SellBook).orderSimulations.map
        OrderSimulation.volume = [20, 30] ∧
    (simulateArbitrageDepth (2/100) (1/2) scenario3BuyBook scenario3SellBook).totalProfitableVolume
        = 50 ∧
    (simulateArbitrageDepth (2/100) (1/2) scenario3BuyBook scenario3SellBook).maxProfitableOrders
        = 2 ∧
    ¬ ((simulateArbitrageDepth (2/100) (1/2) scenario3BuyBook scenario3SellBook).orderSimulations.map
        OrderSimulation.volume = [20, 10]) := by
  norm_num [simulateArbitrageDepth, simulateDepthWalk, mkFill, scenario3BuyBook, scenario3SellBook]

/-- **C5.** For books whose ask side is sorted ascending and bid side
descending with positive prices and volumes, the per-fill net margin
percentages produced by the depth simulation are monotonically
non-increasing; and — unconditionally — the thresholded walk equals the
longest prefix of the unthresholded walk whose fills all meet the minimum,
i.e. it terminates at the first sub-threshold level and never skips ahead. -/
theorem claim_C5_monotone_decay_and_first_stop
    (feeRate minNetMargin : ℚ) (buyMarket sellMarket : EnhancedOrderBook)
    (hA : buyMarket.askLevels.Chain' (fun x y => x.priceINR ≤ y.priceINR))
    (hB : sellMarket.bidLevels.Chain' (fun x y => y.priceINR ≤ x.priceINR))
    (hAp : ∀ l ∈ buyMarket.askLevels, 0 < l.priceINR ∧ 0 < l.volume)
    (hBp : ∀ l ∈ sellMarket.bidLevels, 0 < l.priceINR ∧ 0 < l.volume) :
    List.Chain' (fun f g => g.netMarginPct ≤ f.netMarginPct)
      (simulateArbitrageDepth feeRate minNetMargin buyMarket sellMarket).orderSimulations ∧
    ∀ (fuel : Nat) (n : Nat) (cv ci cp : ℚ),
      (simulateDepthWalk feeRate minNetMargin fuel buyMarket.askLevels sellMarket.bidLevels
          n cv ci cp).fills =
        List.takeWhile (fun f => decide (minNetMargin ≤ f.netMarginPct))
          (simulateDepthWalkAll feeRate fuel buyMarket.askLevels sellMarket.bidLevels
            n cv ci cp).fills := by
  constructor
  · unfold simulateArbitrageDepth
    by_cases h : sellMarket.bestBidINR ≤ buyMarket.bestAskINR
    · simp [h]
    · simp only [if_neg h]
      exact simulateDepthWalk_chain_anti feeRate minNetMargin _ _ _ 1 0 0 0 hA hB hAp hBp
  · intro fuel n cv ci cp
    exact simulateDepthWalk_eq_takeWhile feeRate minNetMargin fuel _ _ n cv ci cp

/-- Witness for `claim_C5_monotone_decay_and_first_stop` at the scenario-3
books: the hypotheses hold and the conclusion follows by applying the
theorem. -/
theorem claim_C5_witness :
    ((∀ l ∈ scenario3BuyBook.askLevels, 0 < l.priceINR ∧ 0 < l.volume) ∧
      (∀ l ∈ scenario3SellBook.bidLevels, 0 < l.priceINR ∧ 0 < l.volume)) ∧
    List.Chain' (fun f g => g.netMarginPct ≤ f.netMarginPct)
      (simulateArbitrageDepth (2/100) (1/2) scenario3BuyBook scenario3SellBook).orderSimulations := by
  have h1 : ∀ l ∈ scenario3BuyBook.askLevels, 0 < l.priceINR ∧ 0 < l.volume := by
    intro l hl
    simp [scenario3BuyBook] at hl
    rcases hl with h | h <;> simp [h]
  have h2 : ∀ l ∈ scenario3SellBook.bidLevels, 0 < l.priceINR ∧ 0 < l.volume := by
    intro l hl
    simp [scenario3SellBook] at hl
    rcases hl with h | h <;> simp [h]
  refine ⟨⟨h1, h2⟩, ?_⟩
  refine (claim_C5_monotone_decay_and_first_stop (2/100) (1/2) scenario3BuyBook scenario3SellBook
    ?_ ?_ h1 h2).1
  · simp [scenario3BuyBook]
    norm_num
  · simp [scenario3SellBook]
    norm_num

/-! ## Real-time engine (`pkg/arbitrage/engine.go`) -/

/-- One raw order-book side as fetched from the exchange: the entries of the
`price -> volume` map (iteration order is that of the list). -/
abbrev RawBookSide := List (ℚ × ℚ)

/-- A fetched raw order book (`map[string]interface{}` with `asks`/`bids`). -/
structure RawOrderBook where
  asks : RawBookSide
  bids : RawBookSide
deriving Repr, DecidableEq

/-- Go `types.OrderLevel` — price and volume only. -/
structure OrderLevel where
  price : ℚ
  volume : ℚ
deriving Repr, DecidableEq

/-- Insert into a list sorted ascending by price (models the `asks` branch of
`sort.Slice` with `price[i] < price[j]`). -/
def insertAsc (x : OrderLevel) : List OrderLevel → List OrderLevel
  | [] => [x]
  | y :: ys => if x.price < y.price then x :: y :: ys else y :: insertAsc x ys

/-- Sort ascending by price. -/
def sortAsc : List OrderLevel → List OrderLevel
  | [] => []
  | x :: xs => insertAsc x (sortAsc xs)

/-- Insert into a list sorted descending by price (models the `bids` branch of
`sort.Slice` with `price[i] > price[j]`). -/
def insertDesc (x : OrderLevel) : List OrderLevel → List OrderLevel
  | [] => [x]
  | y :: ys => if y.price < x.price then x :: y :: ys else y :: insertDesc x ys

/-- Sort descending by price. -/
def sortDesc : List OrderLevel → List OrderLevel
  | [] => []
  | x :: xs => insertDesc x (sortDesc xs)

/-- `parseOrderBookLevels` for the `asks` side: keep entries with positive
volume, sort ascending by price, and keep at most `maxLevels` levels. -/
def parseLevelsAsc (entries : RawBookSide) (maxLevels : Nat) : List OrderLevel :=
  (sortAsc ((entries.filter (fun e => 0 < e.2)).map (fun e => ⟨e.1, e.2⟩))).take maxLevels

/-- `parseOrderBookLevels` for the `bids` side: keep entries with positive
volume, sort descending by price, and keep at most `maxLevels` levels. -/
def parseLevelsDesc (entries : RawBookSide) (maxLevels : Nat) : List OrderLevel :=
  (sortDesc ((entries.filter (fun e => 0 < e.2)).map (fun e => ⟨e.1, e.2⟩))).take maxLevels

/-- The scan of `getBestAsk`: keep the entry with the strictly smallest price
among positive-volume entries, starting from the `999999999` sentinel. -/
def bestAskLoop : RawBookSide → ℚ → ℚ → ℚ × ℚ
  | [], bp, bv => (bp, bv)
  | e :: rest, bp, bv =>
    if e.1 < bp ∧ 0 < e.2 then bestAskLoop rest e.1 e.2 else bestAskLoop rest bp bv

/-- `getBestAsk`: best (lowest-price, positive-volume) ask of the raw book,
`(0, 0)` when the sentinel survives the scan. -/
def getBestAsk (book : RawOrderBook) : ℚ × ℚ :=
  let r := bestAskLoop book.asks 999999999 0
  if r.1 = 999999999 then (0, 0) else r

/-- The scan of `getBestBid`: keep the entry with the strictly greatest price
among positive-volume entries, starting from price `0`. -/
def bestBidLoop : RawBookSide → ℚ → ℚ → ℚ × ℚ
  | [], bp, bv => (bp, bv)
  | e :: rest, bp, bv =>
    if bp < e.1 ∧ 0 < e.2 then bestBidLoop rest e.1 e.2 else bestBidLoop rest bp bv

/-- `getBestBid`: best (highest-price, positive-volume) bid of the raw book. -/
def getBestBid (book : RawOrderBook) : ℚ × ℚ :=
  bestBidLoop book.bids 0 0

/-- Final state of the quick simulation loop of `performQuickDepthAnalysis`. -/
structure QuickWalkOut where
  orderCount : Nat
  totalProfit : ℚ
  remAsks : List OrderLevel
  remBids : List OrderLevel
deriving Repr, DecidableEq

/-- The quick simulation loop of `performQuickDepthAnalysis`: at most 5
orders, skip when the tradeable volume is under 100, stop on non-positive
gross margin, hard-coded 2% total fees, stop when the net margin percentage
drops below the stop-loss threshold; cursor advancement is the same
raw-volume comparison as the full simulator.  `fuel` as in
`simulateDepthWalk`. -/
def quickDepthWalk (stopLossPct : ℚ) :
    Nat → List OrderLevel → List OrderLevel → Nat → ℚ → QuickWalkOut
  | _, [], bids, c, p => ⟨c, p, [], bids⟩
  | _, a :: asks, [], c, p => ⟨c, p, a :: asks, []⟩
  | 0, asks, bids, c, p => ⟨c, p, asks, bids⟩
  | fuel + 1, a :: asks, b :: bids, c, p =>
    if 5 ≤ c then ⟨c, p, a :: asks, b :: bids⟩
    else
      let volume := min a.volume b.volume
      if volume < 100 then ⟨c, p, a :: asks, b :: bids⟩
      else
        let grossMargin := b.price - a.price
        if grossMargin ≤ 0 then ⟨c, p, a :: asks, b :: bids⟩
        else
          let tradeValue := volume * a.price
          let fees := tradeValue * (2/100)
          let netProfit := grossMargin * volume - fees
          let netMarginPct := netProfit / tradeValue * 100
          if netMarginPct < stopLossPct then ⟨c, p, a :: asks, b :: bids⟩
          else
            if a.volume ≤ b.volume then
              if b.volume ≤ a.volume then
                quickDepthWalk stopLossPct fuel asks bids (c + 1) (p + netProfit)
              else
                quickDepthWalk stopLossPct fuel asks (b :: bids) (c + 1) (p + netProfit)
            else
              quickDepthWalk stopLossPct fuel (a :: asks) bids (c + 1) (p + netProfit)

/-- Go `types.QuickDepthResult` (the `Currency` string is dropped). -/
structure QuickDepthResult where
  maxProfitableOrders : Nat
  totalEstimatedProfit : ℚ
  bottleneckSide : String
deriving Repr, DecidableEq

/-- `performQuickDepthAnalysis`: parse the top 5 levels of each side, return
the zero result (bottleneck `"none"`) when either side parses empty,
otherwise run the quick walk and classify the bottleneck: `"buy"` when the
ask cursor exhausted, `"sell"` when the bid cursor (but not the ask cursor)
exhausted, `"none"` otherwise. -/
def performQuickDepthAnalysis (stopLossPct : ℚ) (buyBook sellBook : RawOrderBook) :
    QuickDepthResult :=
  let buyLevels := parseLevelsAsc buyBook.asks 5
  let sellLevels := parseLevelsDesc sellBook.bids 5
  if buyLevels.isEmpty ∨ sellLevels.isEmpty then ⟨0, 0, "none"⟩
  else
    let w := quickDepthWalk stopLossPct (buyLevels.length + sellLevels.length)
      buyLevels sellLevels 0 0
    ⟨w.orderCount, w.totalProfit,
      if w.remAsks.isEmpty then "buy"
      else if w.remBids.isEmpty then "sell"
      else "none"⟩

/-- The two market references inside a stored `types.ArbitrageOpportunity`. -/
structure ArbMarketRef where
  symbol : String
  pair : String
deriving Repr, DecidableEq

/-- Go `types.ArbitrageOpportunity`, restricted to the fields the executors
read: the market references, the stored net margin used for sorting, and the
viability flag. -/
structure ArbitrageOpportunity where
  targetCurrency : String
  buyMarket : ArbMarketRef
  sellMarket : ArbMarketRef
  netMarginPct : ℚ
  viable : Bool
deriving Repr, DecidableEq

/-- Go `arbitrage.RealTimeOpportunity`. -/
structure RealTimeOpportunity where
  currency : String
  buyMarket : String
  sellMarket : String
  buyPrice : ℚ
  sellPrice : ℚ
  volume : ℚ
  expectedMargin : ℚ
  marginPct : ℚ
  viable : Bool
  reason : String
  maxProfitableOrders : Nat
  totalEstimatedProfit : ℚ
deriving Repr, DecidableEq

/-- `analyzeAndValidateRealTime`: the two order-book fetches are passed as
`Except` results.  A fetch error yields a non-viable result carrying the
error in `reason`; then the quick depth analysis must find at least one
profitable order; then best ask/bid prices must be non-zero, the spread
positive, the tradeable volume at least the hard-coded floor 1000, and the
top-of-book net margin percentage (1% fee each side) at least the stop-loss
threshold; on success the volume is capped at `min(maxVolume, 5000)`. -/
def analyzeAndValidateRealTime (stopLossPct : ℚ) (opp : ArbitrageOpportunity)
    (buyFetch sellFetch : Except String RawOrderBook) : RealTimeOpportunity :=
  let base : RealTimeOpportunity :=
    ⟨opp.targetCurrency, opp.buyMarket.symbol, opp.sellMarket.symbol,
      0, 0, 0, 0, 0, false, "", 0, 0⟩
  match buyFetch with
  | .error e => { base with reason := "buy market data error: " ++ e }
  | .ok buyBook =>
    match sellFetch with
    | .error e => { base with reason := "sell market data error: " ++ e }
    | .ok sellBook =>
      let depthResult := performQuickDepthAnalysis stopLossPct buyBook sellBook
      if depthResult.maxProfitableOrders = 0 then
        { base with reason := "no profitable depth found" }
      else
        let ba := getBestAsk buyBook
        let bb := getBestBid sellBook
        if ba.1 = 0 ∨ bb.1 = 0 then
          { base with reason := "no valid prices available" }
        else if bb.1 ≤ ba.1 then
          { base with reason := "no arbitrage: sell <= buy" }
        else
          let grossMargin := bb.1 - ba.1
          let estimatedFees := (ba.1 + bb.1) * (1/100)
          let netMargin := grossMargin - estimatedFees
          let netMarginPct := netMargin / ba.1 * 100
          let filled := { base with
            buyPrice := ba.1, sellPrice := bb.1, expectedMargin := netMargin,
            marginPct := netMarginPct,
            maxProfitableOrders := depthResult.maxProfitableOrders,
            totalEstimatedProfit := depthResult.totalEstimatedProfit }
          let maxVolume := min ba.2 bb.2
          if maxVolume < 1000 then
            { filled with reason := "insufficient volume" }
          else if netMarginPct < stopLossPct then
            { filled with reason := "margin too low" }
          else
            { filled with
              volume := min maxVolume 5000,
              viable := true,
              reason := "profitable arbitrage with sufficient depth" }

/-- Buy book for the C6 counterexample: asks `[100@10, 200@10]`. -/
def c6BuyBook : EnhancedOrderBook := ⟨[⟨100, 10⟩, ⟨200, 10⟩], [], 100, 0⟩

/-- Sell book for the C6 counterexample: bids `[105@10, 101@10]`. -/
def c6SellBook : EnhancedOrderBook := ⟨[], [⟨105, 10⟩, ⟨101, 10⟩], 0, 105⟩

/-- **C6 counterexample.** A depth simulation that terminates because of
margin decay (both cursors still have levels left) is classified `"sell"`,
not `"none"`: with asks `[100@10, 200@10]` and bids `[105@10, 101@10]`
(fee 2%, minimum net margin 0.5%) the walk records one fill, stops because
the second level pair is unprofitable, leaves both sides non-exhausted, and
the full simulator reports bottleneck `"sell"`. -/
theorem claim_C6_counterexample :
    (simulateArbitrageDepth (2/100) (1/2) c6BuyBook c6SellBook).bottleneckSide = "sell" ∧
    (simulateDepthWalk (2/100) (1/2) 4 c6BuyBook.askLevels c6SellBook.bidLevels
        1 0 0 0).remAsks ≠ [] ∧
    (simulateDepthWalk (2/100) (1/2) 4 c6BuyBook.askLevels c6SellBook.bidLevels
        1 0 0 0).remBids ≠ [] ∧
    (simulateArbitrageDepth (2/100) (1/2) c6BuyBook c6SellBook).maxProfitableOrders = 1 := by
  norm_num [simulateArbitrageDepth, simulateDepthWalk, mkFill, c6BuyBook, c6SellBook]

/-- **C6 amended.** Bottleneck classification as the code computes it.  Full
simulator (when the walk runs at all): `"buy"` exactly when the ask cursor
exhausted its levels, `"sell"` otherwise — including termination by margin
decay; it never reports `"none"`.  Quick depth analysis (when both sides
parse non-empty): `"buy"` exactly when the ask cursor exhausted, `"sell"`
exactly when the bid cursor but not the ask cursor exhausted, and `"none"`
exactly when neither exhausted (margin-decay, tiny-volume or order-cap
termination). -/
theorem claim_C6_amended :
    (∀ (feeRate minNetMargin : ℚ) (buyMarket sellMarket : EnhancedOrderBook),
      buyMarket.bestAskINR < sellMarket.bestBidINR →
      ((simulateArbitrageDepth feeRate minNetMargin buyMarket sellMarket).bottleneckSide = "buy" ↔
        (simulateDepthWalk feeRate minNetMargin
          (buyMarket.askLevels.length + sellMarket.bidLevels.length)
          buyMarket.askLevels sellMarket.bidLevels 1 0 0 0).remAsks = []) ∧
      ((simulateArbitrageDepth feeRate minNetMargin buyMarket sellMarket).bottleneckSide = "sell" ↔
        (simulateDepthWalk feeRate minNetMargin
          (buyMarket.askLevels.length + sellMarket.bidLevels.length)
          buyMarket.askLevels sellMarket.bidLevels 1 0 0 0).remAsks ≠ []) ∧
      (simulateArbitrageDepth feeRate minNetMargin buyMarket sellMarket).bottleneckSide ≠ "none") ∧
    (∀ (stopLossPct : ℚ) (buyBook sellBook : RawOrderBook),
      ¬ ((parseLevelsAsc buyBook.asks 5).isEmpty ∨ (parseLevelsDesc sellBook.bids 5).isEmpty) →
      ((performQuickDepthAnalysis stopLossPct buyBook sellBook).bottleneckSide = "buy" ↔
        (quickDepthWalk stopLossPct
          ((parseLevelsAsc buyBook.asks 5).length + (parseLevelsDesc sellBook.bids 5).length)
          (parseLevelsAsc buyBook.asks 5) (parseLevelsDesc sellBook.bids 5) 0 0).remAsks = []) ∧
      ((performQuickDepthAnalysis stopLossPct buyBook sellBook).bottleneckSide = "sell" ↔
        (quickDepthWalk stopLossPct
          ((parseLevelsAsc buyBook.asks 5).length + (parseLevelsDesc sellBook.bids 5).length)
          (parseLevelsAsc buyBook.asks 5) (parseLevelsDesc sellBook.bids 5) 0 0).remAsks ≠ [] ∧
        (quickDepthWalk stopLossPct
          ((parseLevelsAsc buyBook.asks 5).length + (parseLevelsDesc sellBook.bids 5).length)
          (parseLevelsAsc buyBook.asks 5) (parseLevelsDesc sellBook.bids 5) 0 0).remBids = []) ∧
      ((performQuickDepthAnalysis stopLossPct buyBook sellBook).bottleneckSide = "none" ↔
        (quickDepthWalk stopLossPct
          ((parseLevelsAsc buyBook.asks 5).length + (parseLevelsDesc sellBook.bids 5).length)
          (parseLevelsAsc buyBook.asks 5) (parseLevelsDesc sellBook.bids 5) 0 0).remAsks ≠ [] ∧
        (quickDepthWalk stopLossPct
          ((parseLevelsAsc buyBook.asks 5).length + (parseLevelsDesc sellBook.bids 5).length)
          (parseLevelsAsc buyBook.asks 5) (parseLevelsDesc sellBook.bids 5) 0 0).remBids ≠ [])) := by
  constructor
  · intro feeRate minNetMargin buyMarket sellMarket h
    unfold simulateArbitrageDepth
    rw [if_neg (not_le.mpr h)]
    by_cases he :
        (simulateDepthWalk feeRate minNetMargin
          (buyMarket.askLevels.length + sellMarket.bidLevels.length)
          buyMarket.askLevels sellMarket.bidLevels 1 0 0 0).remAsks.isEmpty
    · simp only [he, if_pos]
      refine ⟨?_, ?_, ?_⟩ <;> simp_all [List.isEmpty_iff]
    · simp only [he, if_neg]
      refine ⟨?_, ?_, ?_⟩ <;> simp_all [List.isEmpty_iff]
  · intro stopLossPct buyBook sellBook h
    unfold performQuickDepthAnalysis
    rw [if_neg h]
    by_cases h1 :
        (quickDepthWalk stopLossPct
          ((parseLevelsAsc buyBook.asks 5).length + (parseLevelsDesc sellBook.bids 5).length)
          (parseLevelsAsc buyBook.asks 5) (parseLevelsDesc sellBook.bids 5) 0 0).remAsks.isEmpty
    · simp only [h1, if_pos]
      refine ⟨?_, ?_, ?_⟩ <;> simp_all [List.isEmpty_iff]
    · by_cases h2 :
          (quickDepthWalk stopLossPct
            ((parseLevelsAsc buyBook.asks 5).length + (parseLevelsDesc sellBook.bids 5).length)
            (parseLevelsAsc buyBook.asks 5) (parseLevelsDesc sellBook.bids 5) 0 0).remBids.isEmpty
      · simp only [h1, h2, if_neg, if_pos]
        refine ⟨?_, ?_, ?_⟩ <;> simp_all [List.isEmpty_iff]
      · simp only [h1, h2, if_neg]
        refine ⟨?_, ?_, ?_⟩ <;> simp_all [List.isEmpty_iff]

/-- Witness for `claim_C6_amended` at the counterexample books: the
hypothesis `100 < 105` holds and the `"sell"` classification is equivalent to
the ask side not being exhausted. -/
theorem claim_C6_amended_witness :
    (c6BuyBook.bestAskINR < c6SellBook.bestBidINR) ∧
    ((simulateArbitrageDepth (2/100) (1/2) c6BuyBook c6SellBook).bottleneckSide = "sell" ↔
      (simulateDepthWalk (2/100) (1/2)
        (c6BuyBook.askLevels.length + c6SellBook.bidLevels.length)
        c6BuyBook.askLevels c6SellBook.bidLevels 1 0 0 0).remAsks ≠ []) :=
  ⟨by norm_num [c6BuyBook, c6SellBook],
    ((claim_C6_amended.1 (2/100) (1/2) c6BuyBook c6SellBook
      (by norm_num [c6BuyBook, c6SellBook])).2.1)⟩

/-! ### Facts about the level sorts and best-price scans -/

/-- The positive-volume entries of a raw side, as `OrderLevel`s, in scan
order (what `parseOrderBookLevels` collects before sorting). -/
def posLevels (side : RawBookSide) : List OrderLevel :=
  (side.filter (fun e => 0 < e.2)).map (fun e => ⟨e.1, e.2⟩)

theorem parseLevelsAsc_eq (side : RawBookSide) (maxLevels : Nat) :
    parseLevelsAsc side maxLevels = (sortAsc (posLevels side)).take maxLevels := rfl

theorem parseLevelsDesc_eq (side : RawBookSide) (maxLevels : Nat) :
    parseLevelsDesc side maxLevels = (sortDesc (posLevels side)).take maxLevels := rfl

theorem mem_insertAsc {a x : OrderLevel} {l : List OrderLevel} :
    a ∈ insertAsc x l ↔ a = x ∨ a ∈ l := by
  induction l with
  | nil => simp [insertAsc]
  | cons y ys ih =>
    by_cases h : x.price < y.price
    · simp [insertAsc, h]
    · simp [insertAsc, h, ih]
      tauto

theorem mem_sortAsc {a : OrderLevel} {l : List OrderLevel} :
    a ∈ sortAsc l ↔ a ∈ l := by
  induction l with
  | nil => simp [sortAsc]
  | cons y ys ih => simp [sortAsc, mem_insertAsc, ih]

theorem mem_insertDesc {a x : OrderLevel} {l : List OrderLevel} :
    a ∈ insertDesc x l ↔ a = x ∨ a ∈ l := by
  induction l with
  | nil => simp [insertDesc]
  | cons y ys ih =>
    by_cases h : y.price < x.price
    · simp [insertDesc, h]
    · simp [insertDesc, h, ih]
      tauto

theorem mem_sortDesc {a : OrderLevel} {l : List OrderLevel} :
    a ∈ sortDesc l ↔ a ∈ l := by
  induction l with
  | nil => simp [sortDesc]
  | cons y ys ih => simp [sortDesc, mem_insertDesc, ih]

theorem pairwise_insertAsc {x : OrderLevel} {l : List OrderLevel}
    (h : l.Pairwise (fun u v => u.price ≤ v.price)) :
    (insertAsc x l).Pairwise (fun u v => u.price ≤ v.price) := by
  induction l with
  | nil => simp [insertAsc]
  | cons y ys ih =>
    rcases List.pairwise_cons.mp h with ⟨hy, hys⟩
    by_cases hc : x.price < y.price
    · rw [insertAsc, if_pos hc]
      refine List.pairwise_cons.mpr ⟨?_, h⟩
      intro a ha
      rcases List.mem_cons.mp ha with rfl | ha
      · exact le_of_lt hc
      · exact le_trans (le_of_lt hc) (hy a ha)
    · rw [insertAsc, if_neg hc]
      refine List.pairwise_cons.mpr ⟨?_, ih hys⟩
      intro a ha
      rcases mem_insertAsc.mp ha with rfl | ha
      · exact not_lt.mp hc
      · exact hy a ha

theorem pairwise_sortAsc (l : List OrderLevel) :
    (sortAsc l).Pairwise (fun u v => u.price ≤ v.price) := by
  induction l with
  | nil => simp [sortAsc]
  | cons y ys ih => exact pairwise_insertAsc ih

theorem pairwise_insertDesc {x : OrderLevel} {l : List OrderLevel}
    (h : l.Pairwise (fun u v => v.price ≤ u.price)) :
    (insertDesc x l).Pairwise (fun u v => v.price ≤ u.price) := by
  induction l with
  | nil => simp [insertDesc]
  | cons y ys ih =>
    rcases List.pairwise_cons.mp h with ⟨hy, hys⟩
    by_cases hc : y.price < x.price
    · rw [insertDesc, if_pos hc]
      refine List.pairwise_cons.mpr ⟨?_, h⟩
      intro a ha
      rcases List.mem_cons.mp ha with rfl | ha
      · exact le_of_lt hc
      · exact le_trans (hy a ha) (le_of_lt hc)
    · rw [insertDesc, if_neg hc]
      refine List.pairwise_cons.mpr ⟨?_, ih hys⟩
      intro a ha
      rcases mem_insertDesc.mp ha with rfl | ha
      · exact not_lt.mp hc
      · exact hy a ha

theorem pairwise_sortDesc (l : List OrderLevel) :
    (sortDesc l).Pairwise (fun u v => v.price ≤ u.price) := by
  induction l with
  | nil => simp [sortDesc]
  | cons y ys ih => exact pairwise_insertDesc ih

theorem sortAsc_eq_nil_iff {l : List OrderLevel} : sortAsc l = [] ↔ l = [] := by
  cases l with
  | nil => simp [sortAsc]
  | cons y ys =>
    simp only [sortAsc]
    constructor
    · intro h
      have : y ∈ insertAsc y (sortAsc ys) := mem_insertAsc.mpr (Or.inl rfl)
      rw [h] at this
      simp at this
    · intro h
      simp at h

theorem sortDesc_eq_nil_iff {l : List OrderLevel} : sortDesc l = [] ↔ l = [] := by
  cases l with
  | nil => simp [sortDesc]
  | cons y ys =>
    simp only [sortDesc]
    constructor
    · intro h
      have : y ∈ insertDesc y (sortDesc ys) := mem_insertDesc.mpr (Or.inl rfl)
      rw [h] at this
      simp at this
    · intro h
      simp at h

/-- The `getBestAsk` scan either keeps its running best (and every
positive-volume entry is at least that price) or returns a positive-volume
entry of minimal price that undercuts the running best. -/
theorem bestAskLoop_spec :
    ∀ (side : RawBookSide) (bp bv : ℚ),
      (bestAskLoop side bp bv = (bp, bv) ∧ ∀ e ∈ side, 0 < e.2 → bp ≤ e.1) ∨
      (∃ e ∈ side, 0 < e.2 ∧ bestAskLoop side bp bv = (e.1, e.2) ∧ e.1 < bp ∧
        ∀ e2 ∈ side, 0 < e2.2 → e.1 ≤ e2.1) := by
  intro side
  induction side with
  | nil => intro bp bv; left; simp [bestAskLoop]
  | cons e rest ih =>
    intro bp bv
    by_cases hc : e.1 < bp ∧ 0 < e.2
    · rw [show bestAskLoop (e :: rest) bp bv = bestAskLoop rest e.1 e.2 by
        rw [bestAskLoop, if_pos hc]]
      rcases ih e.1 e.2 with ⟨heq, hmin⟩ | ⟨e2, hmem, hpos, heq, hlt, hmin⟩
      · right
        refine ⟨e, List.mem_cons_self e rest, hc.2, heq, hc.1, ?_⟩
        intro e2 h2 hp2
        rcases List.mem_cons.mp h2 with rfl | h2
        · exact le_refl _
        · exact hmin e2 h2 hp2
      · right
        refine ⟨e2, List.mem_cons_of_mem _ hmem, hpos, heq, lt_trans hlt hc.1, ?_⟩
        intro e3 h3 hp3
        rcases List.mem_cons.mp h3 with rfl | h3
        · exact le_of_lt hlt
        · exact hmin e3 h3 hp3
    · rw [show bestAskLoop (e :: rest) bp bv = bestAskLoop rest bp bv by
        rw [bestAskLoop, if_neg hc]]
      rcases ih bp bv with ⟨heq, hmin⟩ | ⟨e2, hmem, hpos, heq, hlt, hmin⟩
      · left
        refine ⟨heq, ?_⟩
        intro e2 h2 hp2
        rcases List.mem_cons.mp h2 with rfl | h2
        · exact not_lt.mp (fun hl => hc ⟨hl, hp2⟩)
        · exact hmin e2 h2 hp2
      · right
        refine ⟨e2, List.mem_cons_of_mem _ hmem, hpos, heq, hlt, ?_⟩
        intro e3 h3 hp3
        rcases List.mem_cons.mp h3 with rfl | h3
        · exact le_trans (le_of_lt hlt) (not_lt.mp (fun hl => hc ⟨hl, hp3⟩))
        · exact hmin e3 h3 hp3

/-- The `getBestBid` scan, dually. -/
theorem bestBidLoop_spec :
    ∀ (side : RawBookSide) (bp bv : ℚ),
      (bestBidLoop side bp bv = (bp, bv) ∧ ∀ e ∈ side, 0 < e.2 → e.1 ≤ bp) ∨
      (∃ e ∈ side, 0 < e.2 ∧ bestBidLoop side bp bv = (e.1, e.2) ∧ bp < e.1 ∧
        ∀ e2 ∈ side, 0 < e2.2 → e2.1 ≤ e.1) := by
  intro side
  induction side with
  | nil => intro bp bv; left; simp [bestBidLoop]
  | cons e rest ih =>
    intro bp bv
    by_cases hc : bp < e.1 ∧ 0 < e.2
    · rw [show bestBidLoop (e :: rest) bp bv = bestBidLoop rest e.1 e.2 by
        rw [bestBidLoop, if_pos hc]]
      rcases ih e.1 e.2 with ⟨heq, hmin⟩ | ⟨e2, hmem, hpos, heq, hlt, hmin⟩
      · right
        refine ⟨e, List.mem_cons_self e rest, hc.2, heq, hc.1, ?_⟩
        intro e2 h2 hp2
        rcases List.mem_cons.mp h2 with rfl | h2
        · exact le_refl _
        · exact hmin e2 h2 hp2
      · right
        refine ⟨e2, List.mem_cons_of_mem _ hmem, hpos, heq, lt_trans hc.1 hlt, ?_⟩
        intro e3 h3 hp3
        rcases List.mem_cons.mp h3 with rfl | h3
        · exact le_of_lt hlt
        · exact hmin e3 h3 hp3
    · rw [show bestBidLoop (e :: rest) bp bv = bestBidLoop rest bp bv by
        rw [bestBidLoop, if_neg hc]]
      rcases ih bp bv with ⟨heq, hmin⟩ | ⟨e2, hmem, hpos, heq, hlt, hmin⟩
      · left
        refine ⟨heq, ?_⟩
        intro e2 h2 hp2
        rcases List.mem_cons.mp h2 with rfl | h2
        · exact not_lt.mp (fun hl => hc ⟨hl, hp2⟩)
        · exact hmin e2 h2 hp2
      · right
        refine ⟨e2, List.mem_cons_of_mem _ hmem, hpos, heq, hlt, ?_⟩
        intro e3 h3 hp3
        rcases List.mem_cons.mp h3 with rfl | h3
        · exact le_trans (not_lt.mp (fun hl => hc ⟨hl, hp3⟩)) (le_of_lt hlt)
        · exact hmin e3 h3 hp3

/-- Well-formedness of a raw ask side: positive-volume entries have positive
prices below the `getBestAsk` sentinel, and no two positive-volume entries
share a price (entries come from a string-keyed map). -/
def WFAsks (side : RawBookSide) : Prop :=
  (∀ e ∈ side, 0 < e.2 → 0 < e.1 ∧ e.1 < 999999999) ∧
  ((side.filter (fun e => 0 < e.2)).map Prod.fst).Nodup

/-- Well-formedness of a raw bid side: positive-volume entries have positive
prices and pairwise distinct prices. -/
def WFBids (side : RawBookSide) : Prop :=
  (∀ e ∈ side, 0 < e.2 → 0 < e.1) ∧
  ((side.filter (fun e => 0 < e.2)).map Prod.fst).Nodup

theorem mem_posLevels {x : OrderLevel} {side : RawBookSide} :
    x ∈ posLevels side ↔ ∃ e ∈ side, 0 < e.2 ∧ x = ⟨e.1, e.2⟩ := by
  simp only [posLevels, List.mem_map, List.mem_filter, decide_eq_true_eq]
  constructor
  · rintro ⟨e, ⟨he, hp⟩, rfl⟩
    exact ⟨e, he, hp, rfl⟩
  · rintro ⟨e, he, hp, rfl⟩
    exact ⟨e, ⟨he, hp⟩, rfl⟩

theorem posLevels_eq_nil_iff {side : RawBookSide} :
    posLevels side = [] ↔ ∀ e ∈ side, ¬ (0 < e.2) := by
  simp only [posLevels, List.map_eq_nil_iff, List.filter_eq_nil_iff, decide_eq_true_eq]

/-- `getBestAsk` on a book with no positive-volume ask returns `(0, 0)`. -/
theorem getBestAsk_of_empty (book : RawOrderBook) (h : posLevels book.asks = []) :
    getBestAsk book = (0, 0) := by
  have hnone := posLevels_eq_nil_iff.mp h
  rcases bestAskLoop_spec book.asks 999999999 0 with ⟨heq, _⟩ | ⟨e, hmem, hpos, _⟩
  · unfold getBestAsk
    rw [heq]
    simp
  · exact absurd hpos (hnone e hmem)

/-- `getBestBid` on a book with no positive-volume bid returns `(0, 0)`. -/
theorem getBestBid_of_empty (book : RawOrderBook) (h : posLevels book.bids = []) :
    getBestBid book = (0, 0) := by
  have hnone := posLevels_eq_nil_iff.mp h
  rcases bestBidLoop_spec book.bids 0 0 with ⟨heq, _⟩ | ⟨e, hmem, hpos, _⟩
  · unfold getBestBid
    rw [heq]
  · exact absurd hpos (hnone e hmem)

/-- On a well-formed ask side with at least one positive-volume entry,
`getBestAsk` returns exactly the head of the ascending sort: the unique
cheapest positive-volume level. -/
theorem getBestAsk_head (book : RawOrderBook) (hwf : WFAsks book.asks)
    (h : OrderLevel) (t : List OrderLevel)
    (hsort : sortAsc (posLevels book.asks) = h :: t) :
    getBestAsk book = (h.price, h.volume) ∧ 0 < h.price ∧ 0 < h.volume := by
  have hh : h ∈ posLevels book.asks := mem_sortAsc.mp (by rw [hsort]; simp)
  obtain ⟨eh, hehmem, hehpos, heheq⟩ := mem_posLevels.mp hh
  have hhmin : ∀ y ∈ posLevels book.asks, h.price ≤ y.price := by
    intro y hy
    have : y ∈ sortAsc (posLevels book.asks) := mem_sortAsc.mpr hy
    rw [hsort] at this
    rcases List.mem_cons.mp this with rfl | hyt
    · exact le_refl _
    · have hpw := pairwise_sortAsc (posLevels book.asks)
      rw [hsort] at hpw
      exact (List.pairwise_cons.mp hpw).1 y hyt
  rcases bestAskLoop_spec book.asks 999999999 0 with ⟨_, hmin⟩ | ⟨m, hmmem, hmpos, heq, _, hmmin⟩
  · exfalso
    have := hmin eh hehmem hehpos
    have := (hwf.1 eh hehmem hehpos).2
    linarith
  · have hmwf := hwf.1 m hmmem hmpos
    have hgb : getBestAsk book = (m.1, m.2) := by
      unfold getBestAsk
      rw [heq]
      simp only [ne_eq]
      rw [if_neg (by intro hc; rw [hc] at hmwf; linarith [hmwf.2])]
    have hmlv : (⟨m.1, m.2⟩ : OrderLevel) ∈ posLevels book.asks :=
      mem_posLevels.mpr ⟨m, hmmem, hmpos, rfl⟩
    have h1 : h.price ≤ m.1 := hhmin _ hmlv
    have h2 : m.1 ≤ h.price := by
      have := hmmin eh hehmem hehpos
      rw [heheq]
      exact this
    have hprice : m.1 = h.price := le_antisymm h2 h1
    have hfe : eh ∈ book.asks.filter (fun e => 0 < e.2) :=
      List.mem_filter.mpr ⟨hehmem, by simpa using hehpos⟩
    have hfm : m ∈ book.asks.filter (fun e => 0 < e.2) :=
      List.mem_filter.mpr ⟨hmmem, by simpa using hmpos⟩
    have hem : eh = m := by
      apply List.inj_on_of_nodup_map hwf.2 hfe hfm
      rw [hprice, heheq]
    refine ⟨?_, ?_, ?_⟩
    · rw [hgb, heheq] at *
      rw [← hem]
    · rw [heheq]
      exact (hwf.1 eh hehmem hehpos).1
    · rw [heheq]
      exact hehpos

/-- Dually, `getBestBid` returns the head of the descending sort: the unique
richest positive-volume bid level. -/
theorem getBestBid_head (book : RawOrderBook) (hwf : WFBids book.bids)
    (h : OrderLevel) (t : List OrderLevel)
    (hsort : sortDesc (posLevels book.bids) = h :: t) :
    getBestBid book = (h.price, h.volume) ∧ 0 < h.price ∧ 0 < h.volume := by
  have hh : h ∈ posLevels book.bids := mem_sortDesc.mp (by rw [hsort]; simp)
  obtain ⟨eh, hehmem, hehpos, heheq⟩ := mem_posLevels.mp hh
  have hhmax : ∀ y ∈ posLevels book.bids, y.price ≤ h.price := by
    intro y hy
    have : y ∈ sortDesc (posLevels book.bids) := mem_sortDesc.mpr hy
    rw [hsort] at this
    rcases List.mem_cons.mp this with rfl | hyt
    · exact le_refl _
    · have hpw := pairwise_sortDesc (posLevels book.bids)
      rw [hsort] at hpw
      exact (List.pairwise_cons.mp hpw).1 y hyt
  rcases bestBidLoop_spec book.bids 0 0 with ⟨_, hmax⟩ | ⟨m, hmmem, hmpos, heq, _, hmmax⟩
  · exfalso
    have := hmax eh hehmem hehpos
    have := hwf.1 eh hehmem hehpos
    linarith
  · have hgb : getBestBid book = (m.1, m.2) := by
      unfold getBestBid
      rw [heq]
    have hmlv : (⟨m.1, m.2⟩ : OrderLevel) ∈ posLevels book.bids :=
      mem_posLevels.mpr ⟨m, hmmem, hmpos, rfl⟩
    have h1 : m.1 ≤ h.price := hhmax _ hmlv
    have h2 : h.price ≤ m.1 := by
      have := hmmax eh hehmem hehpos
      rw [heheq]
      exact this
    have hprice : m.1 = h.price := le_antisymm h1 h2
    have hfe : eh ∈ book.bids.filter (fun e => 0 < e.2) :=
      List.mem_filter.mpr ⟨hehmem, by simpa using hehpos⟩
    have hfm : m ∈ book.bids.filter (fun e => 0 < e.2) :=
      List.mem_filter.mpr ⟨hmmem, by simpa using hmpos⟩
    have hem : eh = m := by
      apply List.inj_on_of_nodup_map hwf.2 hfe hfm
      rw [hprice, heheq]
    refine ⟨?_, ?_, ?_⟩
    · rw [hgb, heheq] at *
      rw [← hem]
    · rw [heheq]
      exact hwf.1 eh hehmem hehpos
    · rw [heheq]
      exact hehpos

theorem quickDepthWalk_count_mono (stopLossPct : ℚ) :
    ∀ (fuel : Nat) (asks bids : List OrderLevel) (c : Nat) (p : ℚ),
      c ≤ (quickDepthWalk stopLossPct fuel asks bids c p).orderCount := by
  intro fuel
  induction fuel with
  | zero =>
    intro asks bids c p
    cases asks <;> cases bids <;> simp [quickDepthWalk]
  | succ fuel ih =>
    intro asks bids c p
    match asks, bids with
    | [], bids => simp [quickDepthWalk]
    | a :: as, [] => simp [quickDepthWalk]
    | a :: as, b :: bs =>
      rw [quickDepthWalk]
      by_cases h5 : 5 ≤ c
      · simp [h5]
      · simp only [if_neg h5]
        by_cases hv : min a.volume b.volume < 100
        · simp [hv]
        · simp only [if_neg hv]
          by_cases hg : b.price - a.price ≤ 0
          · simp [hg]
          · simp only [if_neg hg]
            by_cases hp : ((b.price - a.price) * min a.volume b.volume -
                min a.volume b.volume * a.price * (2/100)) /
                (min a.volume b.volume * a.price) * 100 < stopLossPct
            · simp [hp]
            · simp only [if_neg hp]
              by_cases h1 : a.volume ≤ b.volume
              · by_cases h2 : b.volume ≤ a.volume
                · simp only [if_pos h1, if_pos h2]
                  exact le_trans (Nat.le_succ c) (ih as bs (c + 1) _)
                · simp only [if_pos h1, if_neg h2]
                  exact le_trans (Nat.le_succ c) (ih as (b :: bs) (c + 1) _)
              · simp only [if_neg h1]
                exact le_trans (Nat.le_succ c) (ih (a :: as) bs (c + 1) _)

/-- If the quick walk on non-empty level lists records no order at all, the
very first level pair already failed one of the loop's break conditions. -/
theorem quickDepthWalk_zero_break (stopLossPct : ℚ) (fuel : Nat)
    (a b : OrderLevel) (as bs : List OrderLevel)
    (h : (quickDepthWalk stopLossPct (fuel + 1) (a :: as) (b :: bs) 0 0).orderCount = 0) :
    min a.volume b.volume < 100 ∨
    b.price - a.price ≤ 0 ∨
    (0 < b.price - a.price ∧
      ((b.price - a.price) * min a.volume b.volume -
        min a.volume b.volume * a.price * (2/100)) /
        (min a.volume b.volume * a.price) * 100 < stopLossPct) := by
  rw [quickDepthWalk] at h
  rw [if_neg (by omega : ¬ 5 ≤ 0)] at h
  by_cases hv : min a.volume b.volume < 100
  · exact Or.inl hv
  · rw [if_neg hv] at h
    by_cases hg : b.price - a.price ≤ 0
    · exact Or.inr (Or.inl hg)
    · rw [if_neg hg] at h
      by_cases hp : ((b.price - a.price) * min a.volume b.volume -
          min a.volume b.volume * a.price * (2/100)) /
          (min a.volume b.volume * a.price) * 100 < stopLossPct
      · exact Or.inr (Or.inr ⟨not_le.mp hg, hp⟩)
      · exfalso
        rw [if_neg hp] at h
        by_cases h1 : a.volume ≤ b.volume
        · by_cases h2 : b.volume ≤ a.volume
          · rw [if_pos h1, if_pos h2] at h
            have hm := quickDepthWalk_count_mono stopLossPct fuel as bs (0 + 1)
              (0 + ((b.price - a.price) * min a.volume b.volume -
                min a.volume b.volume * a.price * (2/100)))
            rw [h] at hm
            omega
          · rw [if_pos h1, if_neg h2] at h
            have hm := quickDepthWalk_count_mono stopLossPct fuel as (b :: bs) (0 + 1)
              (0 + ((b.price - a.price) * min a.volume b.volume -
                min a.volume b.volume * a.price * (2/100)))
            rw [h] at hm
            omega
        · rw [if_neg h1] at h
          have hm := quickDepthWalk_count_mono stopLossPct fuel (a :: as) bs (0 + 1)
            (0 + ((b.price - a.price) * min a.volume b.volume -
              min a.volume b.volume * a.price * (2/100)))
          rw [h] at hm
          omega

/-- The step-4 top-of-book net margin percentage of the revalidator (1% fee
on each side) is at most the quick walk's net margin percentage (2% fee on
buy notional only), whenever the spread is positive. -/
theorem step4pct_le_quickpct {a s v : ℚ} (ha : 0 < a) (hv : 0 < v) (hs : a < s) :
    (s - a - (a + s) * (1/100)) / a * 100 ≤
      ((s - a) * v - v * a * (2/100)) / (v * a) * 100 := by
  have h1 : (s - a - (a + s) * (1/100)) / a * 100 = (s - a) / a * 100 - (a + s) / a := by
    field_simp
    ring
  have h2 : ((s - a) * v - v * a * (2/100)) / (v * a) * 100 = (s - a) / a * 100 - 2 := by
    have hva : v * a ≠ 0 := by positivity
    field_simp
    ring
  have h3 : (2 : ℚ) ≤ (a + s) / a := by
    rw [le_div_iff₀ ha]
    linarith
  linarith

theorem parseLevelsAsc_eq_nil_iff {side : RawBookSide} :
    parseLevelsAsc side 5 = [] ↔ posLevels side = [] := by
  rw [parseLevelsAsc_eq]
  constructor
  · intro h
    rcases List.take_eq_nil_iff.mp h with h5 | h0
    · omega
    · exact sortAsc_eq_nil_iff.mp h0
  · intro h
    rw [h]
    simp [sortAsc]

theorem parseLevelsDesc_eq_nil_iff {side : RawBookSide} :
    parseLevelsDesc side 5 = [] ↔ posLevels side = [] := by
  rw [parseLevelsDesc_eq]
  constructor
  · intro h
    rcases List.take_eq_nil_iff.mp h with h5 | h0
    · omega
    · exact sortDesc_eq_nil_iff.mp h0
  · intro h
    rw [h]
    simp [sortDesc]

theorem parseLevelsAsc_head {side : RawBookSide} {hA : OrderLevel} {tA : List OrderLevel}
    (h : parseLevelsAsc side 5 = hA :: tA) :
    ∃ t, sortAsc (posLevels side) = hA :: t := by
  rw [parseLevelsAsc_eq] at h
  cases hsx : sortAsc (posLevels side) with
  | nil => rw [hsx] at h; simp at h
  | cons y ys =>
    rw [hsx] at h
    rw [List.take_cons (by omega)] at h
    injection h with h1 _
    exact ⟨ys, by rw [h1]⟩

theorem parseLevelsDesc_head {side : RawBookSide} {hB : OrderLevel} {tB : List OrderLevel}
    (h : parseLevelsDesc side 5 = hB :: tB) :
    ∃ t, sortDesc (posLevels side) = hB :: t := by
  rw [parseLevelsDesc_eq] at h
  cases hsx : sortDesc (posLevels side) with
  | nil => rw [hsx] at h; simp at h
  | cons y ys =>
    rw [hsx] at h
    rw [List.take_cons (by omega)] at h
    injection h with h1 _
    exact ⟨ys, by rw [h1]⟩

/-- If the quick depth analysis finds no profitable order, one of the four
rejection conditions of the revalidator already holds at the top of book. -/
theorem quickOrders_zero_imp (stopLossPct : ℚ) (bb sb : RawOrderBook)
    (hwfa : WFAsks bb.asks) (hwfb : WFBids sb.bids)
    (h : (performQuickDepthAnalysis stopLossPct bb sb).maxProfitableOrders = 0) :
    (getBestAsk bb).1 = 0 ∨ (getBestBid sb).1 = 0 ∨
    (getBestBid sb).1 ≤ (getBestAsk bb).1 ∨
    min (getBestAsk bb).2 (getBestBid sb).2 < 100 ∨
    (0 < (getBestBid sb).1 - (getBestAsk bb).1 ∧
      ((getBestBid sb).1 - (getBestAsk bb).1 -
        ((getBestAsk bb).1 + (getBestBid sb).1) * (1/100)) / (getBestAsk bb).1 * 100
        < stopLossPct) := by
  simp only [performQuickDepthAnalysis] at h
  by_cases hempty : (parseLevelsAsc bb.asks 5).isEmpty ∨ (parseLevelsDesc sb.bids 5).isEmpty
  · rcases hempty with he | he
    · left
      have : posLevels bb.asks = [] :=
        parseLevelsAsc_eq_nil_iff.mp (List.isEmpty_iff.mp he)
      rw [getBestAsk_of_empty bb this]
    · right; left
      have : posLevels sb.bids = [] :=
        parseLevelsDesc_eq_nil_iff.mp (List.isEmpty_iff.mp he)
      rw [getBestBid_of_empty sb this]
  · rw [if_neg hempty] at h
    push_neg at hempty
    obtain ⟨hne1, hne2⟩ := hempty
    cases hpa : parseLevelsAsc bb.asks 5 with
    | nil => rw [hpa] at hne1; simp at hne1
    | cons hA tA =>
    cases hpb : parseLevelsDesc sb.bids 5 with
    | nil => rw [hpb] at hne2; simp at hne2
    | cons hB tB =>
      obtain ⟨ta2, hsa⟩ := parseLevelsAsc_head hpa
      obtain ⟨tb2, hsb⟩ := parseLevelsDesc_head hpb
      obtain ⟨hga, hgap, hgav⟩ := getBestAsk_head bb hwfa hA ta2 hsa
      obtain ⟨hgb, hgbp, hgbv⟩ := getBestBid_head sb hwfb hB tb2 hsb
      rw [hpa, hpb] at h
      have hlen : (hA :: tA).length + (hB :: tB).length = (tA.length + tB.length + 1) + 1 := by
        simp
        omega
      rw [hlen] at h
      have h0 : (quickDepthWalk stopLossPct ((tA.length + tB.length + 1) + 1)
          (hA :: tA) (hB :: tB) 0 0).orderCount = 0 := h
      rw [hga, hgb]
      show hA.price = 0 ∨ hB.price = 0 ∨ hB.price ≤ hA.price ∨
        min hA.volume hB.volume < 100 ∨
        (0 < hB.price - hA.price ∧
          (hB.price - hA.price - (hA.price + hB.price) * (1/100)) / hA.price * 100 < stopLossPct)
      rcases quickDepthWalk_zero_break stopLossPct _ hA hB tA tB h0 with hv | hg | ⟨hg, hp⟩
      · exact Or.inr (Or.inr (Or.inr (Or.inl hv)))
      · exact Or.inr (Or.inr (Or.inl (by linarith)))
      · refine Or.inr (Or.inr (Or.inr (Or.inr ⟨hg, ?_⟩)))
        have hvpos : 0 < min hA.volume hB.volume := lt_min hgav hgbv
        have hle := step4pct_le_quickpct hgap hvpos (by linarith : hA.price < hB.price)
        linarith

/-- **C7.** The real-time revalidation never propagates a fetch error (either
failing fetch yields a non-viable result with a non-empty reason); for
well-formed books it rejects exactly when one of the four conditions holds —
no valid price on either side, sell price ≤ buy price, available volume below
the 1000 floor, or top-of-book net margin percentage below the stop-loss
threshold; and on success the tradeable volume is
`min(best ask volume, best bid volume, 5000)`. -/
theorem claim_C7_revalidation (stopLossPct : ℚ) (opp : ArbitrageOpportunity)
    (buyFetch sellFetch : Except String RawOrderBook) :
    (∀ e, buyFetch = Except.error e →
      (analyzeAndValidateRealTime stopLossPct opp buyFetch sellFetch).viable = false ∧
      (analyzeAndValidateRealTime stopLossPct opp buyFetch sellFetch).reason ≠ "") ∧
    (∀ bbok e, buyFetch = Except.ok bbok → sellFetch = Except.error e →
      (analyzeAndValidateRealTime stopLossPct opp buyFetch sellFetch).viable = false ∧
      (analyzeAndValidateRealTime stopLossPct opp buyFetch sellFetch).reason ≠ "") ∧
    (∀ bb sb, buyFetch = Except.ok bb → sellFetch = Except.ok sb →
      WFAsks bb.asks → WFBids sb.bids →
      (((analyzeAndValidateRealTime stopLossPct opp buyFetch sellFetch).viable = false) ↔
        ((getBestAsk bb).1 = 0 ∨ (getBestBid sb).1 = 0 ∨
         (getBestBid sb).1 ≤ (getBestAsk bb).1 ∨
         min (getBestAsk bb).2 (getBestBid sb).2 < 1000 ∨
         ((getBestBid sb).1 - (getBestAsk bb).1 -
           ((getBestAsk bb).1 + (getBestBid sb).1) * (1/100)) / (getBestAsk bb).1 * 100
           < stopLossPct)) ∧
      ((analyzeAndValidateRealTime stopLossPct opp buyFetch sellFetch).viable = true →
        (analyzeAndValidateRealTime stopLossPct opp buyFetch sellFetch).volume =
          min (min (getBestAsk bb).2 (getBestBid sb).2) 5000)) := by
  refine ⟨?_, ?_, ?_⟩
  · intro e he
    subst he
    constructor
    · rfl
    · simp only [analyzeAndValidateRealTime]
      intro hcon
      have hl := congrArg String.length hcon
      simp [String.length_append] at hl
      exact absurd hl.1 (by decide)
  · intro bbok e hb hs
    subst hb
    subst hs
    constructor
    · rfl
    · simp only [analyzeAndValidateRealTime]
      intro hcon
      have hl := congrArg String.length hcon
      simp [String.length_append] at hl
      exact absurd hl.1 (by decide)
  · intro bb sb hb hs hwfa hwfb
    subst hb
    subst hs
    simp only [analyzeAndValidateRealTime]
    by_cases hq : (performQuickDepthAnalysis stopLossPct bb sb).maxProfitableOrders = 0
    · rw [if_pos hq]
      refine ⟨⟨fun _ => ?_, fun _ => rfl⟩, fun hv => by simp at hv⟩
      rcases quickOrders_zero_imp stopLossPct bb sb hwfa hwfb hq with
        h | h | h | h | ⟨_, h⟩
      · exact Or.inl h
      · exact Or.inr (Or.inl h)
      · exact Or.inr (Or.inr (Or.inl h))
      · exact Or.inr (Or.inr (Or.inr (Or.inl (by linarith))))
      · exact Or.inr (Or.inr (Or.inr (Or.inr h)))
    · rw [if_neg hq]
      by_cases hc1 : (getBestAsk bb).1 = 0 ∨ (getBestBid sb).1 = 0
      · rw [if_pos hc1]
        refine ⟨⟨fun _ => ?_, fun _ => rfl⟩, fun hv => by simp at hv⟩
        rcases hc1 with h | h
        · exact Or.inl h
        · exact Or.inr (Or.inl h)
      · rw [if_neg hc1]
        by_cases hc2 : (getBestBid sb).1 ≤ (getBestAsk bb).1
        · rw [if_pos hc2]
          exact ⟨⟨fun _ => Or.inr (Or.inr (Or.inl hc2)), fun _ => rfl⟩,
            fun hv => by simp at hv⟩
        · rw [if_neg hc2]
          by_cases hc3 : min (getBestAsk bb).2 (getBestBid sb).2 < 1000
          · rw [if_pos hc3]
            exact ⟨⟨fun _ => Or.inr (Or.inr (Or.inr (Or.inl hc3))), fun _ => rfl⟩,
              fun hv => by simp at hv⟩
          · rw [if_neg hc3]
            by_cases hc4 : ((getBestBid sb).1 - (getBestAsk bb).1 -
                ((getBestAsk bb).1 + (getBestBid sb).1) * (1/100)) / (getBestAsk bb).1 * 100
                < stopLossPct
            · rw [if_pos hc4]
              exact ⟨⟨fun _ => Or.inr (Or.inr (Or.inr (Or.inr hc4))), fun _ => rfl⟩,
                fun hv => by simp at hv⟩
            · rw [if_neg hc4]
              refine ⟨⟨fun hfalse => by simp at hfalse, fun hcond => ?_⟩, fun _ => rfl⟩
              exfalso
              rcases hcond with h | h | h | h | h
              · exact hc1 (Or.inl h)
              · exact hc1 (Or.inr h)
              · exact hc2 h
              · exact hc3 h
              · exact hc4 h

/-- A stored opportunity used to instantiate the execution-path theorems. -/
def c7Opp : ArbitrageOpportunity :=
  ⟨"BTC", ⟨"BTCUSDT", "B-BTC_USDT"⟩, ⟨"BTCINR", "B-BTC_INR"⟩, 5, true⟩

/-- Concrete buy-side raw book: one ask `100 @ 2000`. -/
def c7BuyBook : RawOrderBook := ⟨[(100, 2000)], []⟩

/-- Concrete sell-side raw book: one bid `110 @ 2000`. -/
def c7SellBook : RawOrderBook := ⟨[], [(110, 2000)]⟩

theorem c7BuyBook_wf : WFAsks c7BuyBook.asks := by
  constructor
  · intro e he
    simp [c7BuyBook] at he
    subst he
    norm_num
  · simp [c7BuyBook, List.filter]

theorem c7SellBook_wf : WFBids c7SellBook.bids := by
  constructor
  · intro e he
    simp [c7SellBook] at he
    subst he
    norm_num
  · simp [c7SellBook, List.filter]

/-- Witness for `claim_C7_revalidation` at the concrete books. -/
theorem claim_C7_witness :
    WFAsks c7BuyBook.asks ∧ WFBids c7SellBook.bids ∧
    (((analyzeAndValidateRealTime 1 c7Opp (Except.ok c7BuyBook)
        (Except.ok c7SellBook)).viable = false) ↔
      ((getBestAsk c7BuyBook).1 = 0 ∨ (getBestBid c7SellBook).1 = 0 ∨
       (getBestBid c7SellBook).1 ≤ (getBestAsk c7BuyBook).1 ∨
       min (getBestAsk c7BuyBook).2 (getBestBid c7SellBook).2 < 1000 ∨
       ((getBestBid c7SellBook).1 - (getBestAsk c7BuyBook).1 -
         ((getBestAsk c7BuyBook).1 + (getBestBid c7SellBook).1) * (1/100)) /
         (getBestAsk c7BuyBook).1 * 100 < 1)) ∧
    ((analyzeAndValidateRealTime 1 c7Opp (Except.ok c7BuyBook)
        (Except.ok c7SellBook)).viable = true →
      (analyzeAndValidateRealTime 1 c7Opp (Except.ok c7BuyBook)
        (Except.ok c7SellBook)).volume =
        min (min (getBestAsk c7BuyBook).2 (getBestBid c7SellBook).2) 5000) := by
  have h := (claim_C7_revalidation 1 c7Opp (Except.ok c7BuyBook) (Except.ok c7SellBook)).2.2
    c7BuyBook c7SellBook rfl rfl c7BuyBook_wf c7SellBook_wf
  exact ⟨c7BuyBook_wf, c7SellBook_wf, h.1, h.2⟩

/-! ## Order execution (`executeRealTimeOrder`, `recoverToUSDT`,
`waitForOrderFill`) -/

/-- Go `coindcx.OrderRequest` (the engine only places market orders). -/
structure OrderRequest where
  side : String
  orderType : String
  market : String
  totalQuantity : ℚ
deriving Repr, DecidableEq

/-- Go `coindcx.Order` — the fields the engine reads. -/
structure Order where
  id : String
  status : String
  totalQuantity : ℚ
  remainingQuantity : ℚ
  avgPrice : ℚ
  feeAmount : ℚ
deriving Repr, DecidableEq

/-- Deterministic oracle for the trading API client: `createOrder` maps a
request to the response's order list (or a transient error), and
`getOrderStatus` maps an order id and the index of the status call for that
order to the reply. -/
structure Client where
  createOrder : OrderRequest → Except String (List Order)
  getOrderStatus : String → Nat → Except String Order

/-- The polling loop body of `waitForOrderFill`: at each tick query the
status; errors are retried until the timeout; `filled` succeeds;
`cancelled`/`rejected` fail; anything else keeps polling.  Returns whether
the order filled and the index of the next status call for this order. -/
def waitPoll (client : Client) (orderID : String) : Nat → Nat → Bool × Nat
  | 0, i => (false, i)
  | t + 1, i =>
    match client.getOrderStatus orderID i with
    | .error _ => waitPoll client orderID t (i + 1)
    | .ok order =>
      if order.status = "filled" then (true, i + 1)
      else if order.status = "cancelled" ∨ order.status = "rejected" then (false, i + 1)
      else waitPoll client orderID t (i + 1)

/-- `waitForOrderFill`: poll once per second until the timeout; the Go
`select` over ticker and timer is modelled as `timeoutSeconds` polls. -/
def waitForOrderFill (client : Client) (orderID : String) (timeoutSeconds : Nat) : Bool × Nat :=
  waitPoll client orderID timeoutSeconds 0

/-- Which call site submitted an order. -/
inductive LegTag
  | buyLeg
  | sellLeg
  | recoveryLeg
deriving Repr, DecidableEq

/-- Events emitted by the execution paths: lock handling of the live
detector, the start of one execution attempt, and each order submission. -/
inductive ExecEvent
  | lockAcquire
  | lockRelease
  | attemptStart (opp : ArbitrageOpportunity)
  | orderSubmit (tag : LegTag) (req : OrderRequest)
deriving Repr, DecidableEq

/-- Go `types.ExecutedOrder` (time fields dropped). -/
structure ExecutedOrder where
  currency : String
  buyMarket : String
  sellMarket : String
  buyOrderID : String
  sellOrderID : String
  plannedVolume : ℚ
  volumeExecuted : ℚ
  buyPrice : ℚ
  sellPrice : ℚ
  expectedProfit : ℚ
  actualProfit : ℚ
  actualMarginPct : ℚ
  success : Bool
  errorMessage : String
deriving Repr, DecidableEq

/-- Go `arbitrage.RecoveryResult`. -/
structure RecoveryResult where
  success : Bool
  sellPrice : ℚ
  feeAmount : ℚ
  orderID : String
deriving Repr, DecidableEq

/-- Execution configuration (`types.ExecutionConfig`), restricted to the
fields the embedded code reads. -/
structure ExecutionConfig where
  maxPositionUSDT : ℚ
  stopLossPct : ℚ
  orderTimeoutSeconds : Nat
deriving Repr, DecidableEq

/-- The market-sell request `recoverToUSDT` submits: full volume on the
`currency + "USDT"` market. -/
def recoveryRequest (currency : String) (volume : ℚ) : OrderRequest :=
  ⟨"sell", "market_order", currency ++ "USDT", volume⟩

/-- `recoverToUSDT`: submit one market sell of the full volume on the USDT
market, wait up to 15 seconds for the fill, and read the final order; any
failure yields an unsuccessful recovery.  The second component is the list
of order-submission events. -/
def recoverToUSDT (client : Client) (currency : String) (volume : ℚ) :
    RecoveryResult × List ExecEvent :=
  let req := recoveryRequest currency volume
  let events := [ExecEvent.orderSubmit .recoveryLeg req]
  match client.createOrder req with
  | .error _ => (⟨false, 0, 0, ""⟩, events)
  | .ok [] => (⟨false, 0, 0, ""⟩, events)
  | .ok (o :: _) =>
    let w := waitForOrderFill client o.id 15
    if w.1 = false then (⟨false, 0, 0, ""⟩, events)
    else
      match client.getOrderStatus o.id w.2 with
      | .error _ => (⟨false, 0, 0, ""⟩, events)
      | .ok finalOrder => (⟨true, finalOrder.avgPrice, finalOrder.feeAmount, o.id⟩, events)

theorem recoverToUSDT_events (client : Client) (currency : String) (volume : ℚ) :
    (recoverToUSDT client currency volume).2 =
      [ExecEvent.orderSubmit .recoveryLeg (recoveryRequest currency volume)] := by
  unfold recoverToUSDT
  cases h : client.createOrder (recoveryRequest currency volume) with
  | error e => simp [h]
  | ok l =>
    cases l with
    | nil => simp [h]
    | cons o rest =>
      simp only [h]
      by_cases hw : (waitForOrderFill client o.id 15).1 = false
      · simp [hw]
      · simp only [if_neg hw]
        cases hs : client.getOrderStatus o.id (waitForOrderFill client o.id 15).2 <;> simp [hs]

/-- The sell request of the second leg. -/
def sellRequest (market : String) (qty : ℚ) : OrderRequest :=
  ⟨"sell", "market_order", market, qty⟩

/-- Outcome of the sell leg of `executeRealTimeOrder` (the Go nesting
`if err == nil && len(orders) > 0 { if filled { if status ok { success } } }`
flattened): not placed at all, placed but not confirmed filled, or filled
with a final order read. -/
inductive SellOutcome
  | notPlaced
  | placedNotFilled (orderId : String)
  | filledOk (orderId : String) (finalOrder : Order)
deriving Repr, DecidableEq

/-- The sell leg of `executeRealTimeOrder`. -/
def sellPhase (client : Client) (timeoutSeconds : Nat) (market : String) (qty : ℚ) :
    SellOutcome :=
  match client.createOrder (sellRequest market qty) with
  | .error _ => .notPlaced
  | .ok [] => .notPlaced
  | .ok (o :: _) =>
    let w := waitForOrderFill client o.id timeoutSeconds
    if w.1 = false then .placedNotFilled o.id
    else
      match client.getOrderStatus o.id w.2 with
      | .error _ => .placedNotFilled o.id
      | .ok filledSell => .filledOk o.id filledSell

/-- The buy request of the first leg. -/
def buyRequest (opp : RealTimeOpportunity) : OrderRequest :=
  ⟨"buy", "market_order", opp.buyMarket, opp.volume⟩

/-- The recovery tail of `executeRealTimeOrder` (step 3): run
`recoverToUSDT`; on success overwrite profit/margin/price/order id from the
recovery fill and mark the attempt successful regardless of the sign of the
profit; otherwise record `"recovery failed"`. -/
def recoveryFinish (client : Client) (currency : String) (actualVolume : ℚ)
    (filledBuy : Order) (eo2 : ExecutedOrder) : ExecutedOrder × List ExecEvent :=
  let r := recoverToUSDT client currency actualVolume
  let buyValue := actualVolume * filledBuy.avgPrice
  let sellValue := actualVolume * r.1.sellPrice
  let fees := filledBuy.feeAmount + r.1.feeAmount
  (if r.1.success then
    { eo2 with
      actualProfit := sellValue - buyValue - fees
      actualMarginPct := (sellValue - buyValue - fees) / buyValue * 100
      sellPrice := r.1.sellPrice
      sellOrderID := r.1.orderID
      success := true }
  else { eo2 with errorMessage := "recovery failed" }, r.2)

/-- `executeRealTimeOrder`: place the buy market order; abort (volume 0, no
further submission) on creation error, empty order list, poll failure, or a
failing post-fill status read; otherwise read the executed volume and price,
run the sell leg for the executed volume, and either record the arbitrage
success or fall through to recovery. -/
def executeRealTimeOrder (client : Client) (cfg : ExecutionConfig)
    (opp : RealTimeOpportunity) : ExecutedOrder × List ExecEvent :=
  let eo0 : ExecutedOrder :=
    { currency := opp.currency, buyMarket := opp.buyMarket, sellMarket := opp.sellMarket,
      buyOrderID := "", sellOrderID := "", plannedVolume := opp.volume,
      volumeExecuted := 0, buyPrice := 0, sellPrice := 0,
      expectedProfit := opp.expectedMargin * opp.volume,
      actualProfit := 0, actualMarginPct := 0, success := false, errorMessage := "" }
  let breq := buyRequest opp
  let buyEvents := [ExecEvent.orderSubmit .buyLeg breq]
  match client.createOrder breq with
  | .error _ => ({ eo0 with errorMessage := "buy failed" }, buyEvents)
  | .ok [] => ({ eo0 with errorMessage := "no buy order returned" }, buyEvents)
  | .ok (o :: _) =>
    let w := waitForOrderFill client o.id cfg.orderTimeoutSeconds
    if w.1 = false then
      ({ eo0 with buyOrderID := o.id, errorMessage := "buy timeout" }, buyEvents)
    else
      match client.getOrderStatus o.id w.2 with
      | .error _ =>
        ({ eo0 with buyOrderID := o.id, errorMessage := "buy status error" }, buyEvents)
      | .ok filledBuy =>
        let actualVolume := filledBuy.totalQuantity - filledBuy.remainingQuantity
        let eo1 := { eo0 with
          buyOrderID := o.id
          volumeExecuted := actualVolume
          buyPrice := filledBuy.avgPrice }
        let sellEvents :=
          [ExecEvent.orderSubmit .sellLeg (sellRequest opp.sellMarket actualVolume)]
        match sellPhase client cfg.orderTimeoutSeconds opp.sellMarket actualVolume with
        | .filledOk sid filledSell =>
          let buyValue := actualVolume * filledBuy.avgPrice
          let sellValue := actualVolume * filledSell.avgPrice
          let fees := filledBuy.feeAmount + filledSell.feeAmount
          ({ eo1 with
            sellOrderID := sid
            sellPrice := filledSell.avgPrice
            actualProfit := sellValue - buyValue - fees
            actualMarginPct := (sellValue - buyValue - fees) / buyValue * 100
            success := true }, buyEvents ++ sellEvents)
        | .notPlaced =>
          let r := recoveryFinish client opp.currency actualVolume filledBuy eo1
          (r.1, buyEvents ++ sellEvents ++ r.2)
        | .placedNotFilled sid =>
          let r := recoveryFinish client opp.currency actualVolume filledBuy
            { eo1 with sellOrderID := sid }
          (r.1, buyEvents ++ sellEvents ++ r.2)

/-- Recognizer for recovery-leg submissions in a trace. -/
def isRecoverySubmit : ExecEvent → Bool
  | ExecEvent.orderSubmit LegTag.recoveryLeg _ => true
  | _ => false

/-- **C4.** If the buy leg does not reach the filled state — order creation
fails, no order is returned, or the poll ends without a fill (timeout,
cancellation or rejection) — the attempt records executed volume exactly 0
and the only order ever submitted is the buy order itself: no sell and no
recovery order. -/
theorem claim_C4_buy_abort_no_position (client : Client) (cfg : ExecutionConfig)
    (opp : RealTimeOpportunity)
    (h : (∃ e, client.createOrder (buyRequest opp) = .error e) ∨
         client.createOrder (buyRequest opp) = .ok [] ∨
         (∃ o rest, client.createOrder (buyRequest opp) = .ok (o :: rest) ∧
           (waitForOrderFill client o.id cfg.orderTimeoutSeconds).1 = false)) :
    (executeRealTimeOrder client cfg opp).1.volumeExecuted = 0 ∧
    (executeRealTimeOrder client cfg opp).2 =
      [ExecEvent.orderSubmit .buyLeg (buyRequest opp)] := by
  unfold executeRealTimeOrder
  rcases h with ⟨e, he⟩ | he | ⟨o, rest, he, hw⟩
  · simp [he]
  · simp [he]
  · simp [he, hw]

/-- **C3.** If the buy leg completes (created, polled to `filled`, status
read) and the sell leg does not complete successfully (not placed, not
filled, or its final status read fails), then exactly one recovery order is
submitted — a market sell of the full executed buy volume on the
`currency+"USDT"` market — and when the recovery fills, the attempt is
marked successful with profit and margin computed from the recovery fill
price by the same formula as a normal sell (no coercion of negative profit
to failure); when the recovery fails, the attempt is marked failed. -/
theorem claim_C3_recovery_completeness (client : Client) (cfg : ExecutionConfig)
    (opp : RealTimeOpportunity) (o : Order) (rest : List Order) (filledBuy : Order)
    (hbc : client.createOrder (buyRequest opp) = .ok (o :: rest))
    (hbw : (waitForOrderFill client o.id cfg.orderTimeoutSeconds).1 = true)
    (hbs : client.getOrderStatus o.id
      (waitForOrderFill client o.id cfg.orderTimeoutSeconds).2 = .ok filledBuy)
    (hsell : ∀ sid fs, sellPhase client cfg.orderTimeoutSeconds opp.sellMarket
      (filledBuy.totalQuantity - filledBuy.remainingQuantity) ≠ .filledOk sid fs) :
    (executeRealTimeOrder client cfg opp).2.filter isRecoverySubmit =
      [ExecEvent.orderSubmit .recoveryLeg (recoveryRequest opp.currency
        (filledBuy.totalQuantity - filledBuy.remainingQuantity))] ∧
    (executeRealTimeOrder client cfg opp).1.volumeExecuted =
      filledBuy.totalQuantity - filledBuy.remainingQuantity ∧
    ((recoverToUSDT client opp.currency
        (filledBuy.totalQuantity - filledBuy.remainingQuantity)).1.success = true →
      (executeRealTimeOrder client cfg opp).1.success = true ∧
      (executeRealTimeOrder client cfg opp).1.sellPrice =
        (recoverToUSDT client opp.currency
          (filledBuy.totalQuantity - filledBuy.remainingQuantity)).1.sellPrice ∧
      (executeRealTimeOrder client cfg opp).1.actualProfit =
        (filledBuy.totalQuantity - filledBuy.remainingQuantity) *
          (recoverToUSDT client opp.currency
            (filledBuy.totalQuantity - filledBuy.remainingQuantity)).1.sellPrice -
        (filledBuy.totalQuantity - filledBuy.remainingQuantity) * filledBuy.avgPrice -
        (filledBuy.feeAmount +
          (recoverToUSDT client opp.currency
            (filledBuy.totalQuantity - filledBuy.remainingQuantity)).1.feeAmount) ∧
      (executeRealTimeOrder client cfg opp).1.actualMarginPct =
        (executeRealTimeOrder client cfg opp).1.actualProfit /
          ((filledBuy.totalQuantity - filledBuy.remainingQuantity) * filledBuy.avgPrice)
          * 100) ∧
    ((recoverToUSDT client opp.currency
        (filledBuy.totalQuantity - filledBuy.remainingQuantity)).1.success = false →
      (executeRealTimeOrder client cfg opp).1.success = false ∧
      (executeRealTimeOrder client cfg opp).1.errorMessage = "recovery failed") := by
  unfold executeRealTimeOrder
  simp only [hbc, hbw]
  rw [if_neg (by simp)]
  simp only [hbs]
  cases hsp : sellPhase client cfg.orderTimeoutSeconds opp.sellMarket
      (filledBuy.totalQuantity - filledBuy.remainingQuantity) with
  | filledOk sid fs => exact absurd hsp (hsell sid fs)
  | notPlaced =>
    simp only [recoveryFinish]
    by_cases hr : (recoverToUSDT client opp.currency
        (filledBuy.totalQuantity - filledBuy.remainingQuantity)).1.success
    · simp [hr, recoverToUSDT_events, isRecoverySubmit, List.filter_append]
    · simp only [Bool.not_eq_true] at hr
      simp [hr, recoverToUSDT_events, isRecoverySubmit, List.filter_append]
  | placedNotFilled sid =>
    simp only [recoveryFinish]
    by_cases hr : (recoverToUSDT client opp.currency
        (filledBuy.totalQuantity - filledBuy.remainingQuantity)).1.success
    · simp [hr, recoverToUSDT_events, isRecoverySubmit, List.filter_append]
    · simp only [Bool.not_eq_true] at hr
      simp [hr, recoverToUSDT_events, isRecoverySubmit, List.filter_append]

/-- A validated opportunity used to exercise the execution paths: buy on
`BTCUSDT`, sell on `BTCINR`, volume 2000. -/
def c3Opp : RealTimeOpportunity :=
  ⟨"BTC", "BTCUSDT", "BTCINR", 100, 110, 2000, 79/10, 79/10, true,
    "profitable arbitrage with sufficient depth", 1, 16000⟩

/-- Execution config for the witnesses: max position 100, stop loss 1%,
order timeout 2 polls. -/
def cfgX : ExecutionConfig := ⟨100, 1, 2⟩

/-- Client whose order creation always fails. -/
def c4Client : Client :=
  { createOrder := fun _ => .error "connection refused"
    getOrderStatus := fun _ _ => .error "unavailable" }

/-- Witness for `claim_C4_buy_abort_no_position`: with a client that rejects
order creation, the attempt records volume 0 and only the buy submission. -/
theorem claim_C4_witness :
    (executeRealTimeOrder c4Client cfgX c3Opp).1.volumeExecuted = 0 ∧
    (executeRealTimeOrder c4Client cfgX c3Opp).2 =
      [ExecEvent.orderSubmit .buyLeg (buyRequest c3Opp)] :=
  claim_C4_buy_abort_no_position c4Client cfgX c3Opp (Or.inl ⟨"connection refused", rfl⟩)

/-- Client that fills the buy order `b1` at price 100 (fee 1), rejects the
sell order on `BTCINR`, and fills the recovery order `r1` at price 90
(fee 1) — so the recovery completes with a negative overall profit. -/
def c3Client : Client :=
  { createOrder := fun req =>
      if req.market = "BTCINR" then .error "sell rejected"
      else if req.side = "buy" then .ok [⟨"b1", "open", 0, 0, 0, 0⟩]
      else .ok [⟨"r1", "open", 0, 0, 0, 0⟩]
    getOrderStatus := fun oid _ =>
      if oid = "b1" then .ok ⟨"b1", "filled", 10, 0, 100, 1⟩
      else .ok ⟨"r1", "filled", 10, 0, 90, 1⟩ }

/-- Witness for `claim_C3_recovery_completeness` at the scripted client:
exactly one recovery submission, the attempt succeeds, and the recorded
profit is negative yet `success` stays `true`. -/
theorem claim_C3_witness :
    (executeRealTimeOrder c3Client cfgX c3Opp).2.filter isRecoverySubmit =
      [ExecEvent.orderSubmit .recoveryLeg (recoveryRequest c3Opp.currency
        ((⟨"b1", "filled", 10, 0, 100, 1⟩ : Order).totalQuantity -
          (⟨"b1", "filled", 10, 0, 100, 1⟩ : Order).remainingQuantity))] ∧
    (executeRealTimeOrder c3Client cfgX c3Opp).1.success = true ∧
    (executeRealTimeOrder c3Client cfgX c3Opp).1.actualProfit < 0 := by
  have hnp : sellPhase c3Client cfgX.orderTimeoutSeconds c3Opp.sellMarket
      ((⟨"b1", "filled", 10, 0, 100, 1⟩ : Order).totalQuantity -
        (⟨"b1", "filled", 10, 0, 100, 1⟩ : Order).remainingQuantity) = .notPlaced := rfl
  have h := claim_C3_recovery_completeness c3Client cfgX c3Opp
    ⟨"b1", "open", 0, 0, 0, 0⟩ [] ⟨"b1", "filled", 10, 0, 100, 1⟩ rfl rfl rfl
    (by intro sid fs hcon; rw [hnp] at hcon; simp at hcon)
  refine ⟨h.1, (h.2.2.1 rfl).1, ?_⟩
  have hval : (executeRealTimeOrder c3Client cfgX c3Opp).1.actualProfit =
      ((10 : ℚ) - 0) * 90 - ((10 : ℚ) - 0) * 100 - (1 + 1) := rfl
  rw [hval]
  norm_num

/-! ## Batch executor (`Engine.Execute`) and live path
(`LiveDetector.detectAndExecute` / `executeArbitrageSequentially`) -/

/-- Go `strings.Contains`. -/
def containsSubstr (s sub : String) : Bool := decide (sub.toList <:+: s.toList)

/-- Insertion into a list sorted descending by stored net margin (models
`sort.Slice` with `NetMarginPct[i] > NetMarginPct[j]`). -/
def insertOppDesc (x : ArbitrageOpportunity) :
    List ArbitrageOpportunity → List ArbitrageOpportunity
  | [] => [x]
  | y :: ys => if y.netMarginPct < x.netMarginPct then x :: y :: ys else y :: insertOppDesc x ys

/-- Sort opportunities by descending stored net margin. -/
def sortOppDesc : List ArbitrageOpportunity → List ArbitrageOpportunity
  | [] => []
  | x :: xs => insertOppDesc x (sortOppDesc xs)

theorem mem_insertOppDesc {a x : ArbitrageOpportunity} {l : List ArbitrageOpportunity} :
    a ∈ insertOppDesc x l ↔ a = x ∨ a ∈ l := by
  induction l with
  | nil => simp [insertOppDesc]
  | cons y ys ih =>
    by_cases h : y.netMarginPct < x.netMarginPct
    · simp [insertOppDesc, h]
    · simp [insertOppDesc, h, ih]
      tauto

theorem mem_sortOppDesc {a : ArbitrageOpportunity} {l : List ArbitrageOpportunity} :
    a ∈ sortOppDesc l ↔ a ∈ l := by
  induction l with
  | nil => simp [sortOppDesc]
  | cons y ys ih => simp [sortOppDesc, mem_insertOppDesc, ih]

/-- Go `types.ExecutionResult`, restricted to the fields the loop writes. -/
structure ExecutionResult where
  orders : List ExecutedOrder
  totalProfit : ℚ
  totalInvestment : ℚ
  successful : Bool
deriving Repr, DecidableEq

/-- The shared processing loop of `Engine.Execute` and the live detector's
`executeArbitrageSequentially` (the source states the latter "is exactly the
same as arbitrage.Engine.Execute()"): revalidate each opportunity against
fresh order books, skip non-viable ones, execute viable ones immediately,
accumulate profit and investment (the hard-coded `/ 83.0` USDT conversion)
on success, and stop once cumulative investment reaches the configured
maximum position. -/
def processOpportunities (client : Client) (fetchBook : String → Except String RawOrderBook)
    (cfg : ExecutionConfig) :
    List ArbitrageOpportunity → ℚ → ℚ → List ExecutedOrder × ℚ × ℚ × List ExecEvent
  | [], totalProfit, totalInvestment => ([], totalProfit, totalInvestment, [])
  | opp :: rest, totalProfit, totalInvestment =>
    let liveOpp := analyzeAndValidateRealTime cfg.stopLossPct opp
      (fetchBook opp.buyMarket.pair) (fetchBook opp.sellMarket.pair)
    if liveOpp.viable = false then
      processOpportunities client fetchBook cfg rest totalProfit totalInvestment
    else
      let er := executeRealTimeOrder client cfg liveOpp
      let newProfit := if er.1.success then totalProfit + er.1.actualProfit else totalProfit
      let newInvestment :=
        if er.1.success then totalInvestment + er.1.volumeExecuted * er.1.buyPrice / 83
        else totalInvestment
      if cfg.maxPositionUSDT ≤ newInvestment then
        ([er.1], newProfit, newInvestment, ExecEvent.attemptStart opp :: er.2)
      else
        let r := processOpportunities client fetchBook cfg rest newProfit newInvestment
        (er.1 :: r.1, r.2.1, r.2.2.1, (ExecEvent.attemptStart opp :: er.2) ++ r.2.2.2)

/-- `Engine.Execute`: keep the viable opportunities whose **buy-market**
symbol contains `"USDT"`, sort by descending net margin, run the loop.
No lock of any kind is acquired on this path. -/
def engineExecute (client : Client) (fetchBook : String → Except String RawOrderBook)
    (cfg : ExecutionConfig) (opportunities : List ArbitrageOpportunity) :
    ExecutionResult × List ExecEvent :=
  let viableOpps := opportunities.filter
    (fun o => o.viable && containsSubstr o.buyMarket.symbol "USDT")
  let sorted := sortOppDesc viableOpps
  let r := processOpportunities client fetchBook cfg sorted 0 0
  (⟨r.1, r.2.1, r.2.2.1, decide (0 < r.2.1)⟩, r.2.2.2)

/-- `LiveDetector.executeArbitrageSequentially`: identical loop, but the
filter admits opportunities where **either** market symbol contains
`"USDT"`. -/
def liveExecuteSequentially (client : Client) (fetchBook : String → Except String RawOrderBook)
    (cfg : ExecutionConfig) (opportunities : List ArbitrageOpportunity) :
    ExecutionResult × List ExecEvent :=
  let viableOpps := opportunities.filter
    (fun o => o.viable && (containsSubstr o.buyMarket.symbol "USDT" ||
      containsSubstr o.sellMarket.symbol "USDT"))
  let sorted := sortOppDesc viableOpps
  let r := processOpportunities client fetchBook cfg sorted 0 0
  (⟨r.1, r.2.1, r.2.2.1, decide (0 < r.2.1)⟩, r.2.2.2)

/-- `LiveDetector.detectAndExecute`, from the analysis result on: on analysis
failure or no viable opportunity, nothing happens; otherwise the detector's
`executionMux` is acquired, the sequential executor runs, and the lock is
released.  Only this path ever touches the lock. -/
def detectAndExecute (client : Client) (fetchBook : String → Except String RawOrderBook)
    (cfg : ExecutionConfig)
    (analysisResult : Except String (List ArbitrageOpportunity)) : List ExecEvent :=
  match analysisResult with
  | .error _ => []
  | .ok opps =>
    let viableOpps := opps.filter (fun o => o.viable)
    if viableOpps.isEmpty then []
    else
      ExecEvent.lockAcquire ::
        ((liveExecuteSequentially client fetchBook cfg viableOpps).2 ++
          [ExecEvent.lockRelease])

theorem recoveryFinish_events (client : Client) (currency : String) (v : ℚ)
    (fb : Order) (eo : ExecutedOrder) :
    (recoveryFinish client currency v fb eo).2 = (recoverToUSDT client currency v).2 := rfl

/-- Every event emitted by one execution attempt is an order submission. -/
theorem executeRealTimeOrder_events_are_orders (client : Client) (cfg : ExecutionConfig)
    (opp : RealTimeOpportunity) :
    ∀ ev ∈ (executeRealTimeOrder client cfg opp).2,
      ∃ tag req, ev = ExecEvent.orderSubmit tag req := by
  intro ev hev
  unfold executeRealTimeOrder at hev
  cases hc : client.createOrder (buyRequest opp) with
  | error e0 =>
    simp only [hc] at hev
    simp at hev
    exact ⟨_, _, hev⟩
  | ok l =>
    simp only [hc] at hev
    cases l with
    | nil =>
      simp at hev
      exact ⟨_, _, hev⟩
    | cons o rest =>
      simp only at hev
      by_cases hw : (waitForOrderFill client o.id cfg.orderTimeoutSeconds).1 = false
      · simp [hw] at hev
        exact ⟨_, _, hev⟩
      · rw [if_neg hw] at hev
        cases hs : client.getOrderStatus o.id
            (waitForOrderFill client o.id cfg.orderTimeoutSeconds).2 with
        | error e1 =>
          simp only [hs] at hev
          simp at hev
          exact ⟨_, _, hev⟩
        | ok filledBuy =>
          simp only [hs] at hev
          cases hsp : sellPhase client cfg.orderTimeoutSeconds opp.sellMarket
              (filledBuy.totalQuantity - filledBuy.remainingQuantity) with
          | filledOk sid fs =>
            simp only [hsp] at hev
            simp at hev
            rcases hev with hev | hev <;> exact ⟨_, _, hev⟩
          | notPlaced =>
            simp only [hsp, recoveryFinish_events, recoverToUSDT_events] at hev
            simp at hev
            rcases hev with hev | hev | hev <;> exact ⟨_, _, hev⟩
          | placedNotFilled sid =>
            simp only [hsp, recoveryFinish_events, recoverToUSDT_events] at hev
            simp at hev
            rcases hev with hev | hev | hev <;> exact ⟨_, _, hev⟩

theorem attemptStart_not_in_exec_events (client : Client) (cfg : ExecutionConfig)
    (lo : RealTimeOpportunity) (opp : ArbitrageOpportunity) :
    ExecEvent.attemptStart opp ∉ (executeRealTimeOrder client cfg lo).2 := by
  intro h
  obtain ⟨tag, req, heq⟩ := executeRealTimeOrder_events_are_orders client cfg lo _ h
  simp at heq

theorem lockAcquire_not_in_exec_events (client : Client) (cfg : ExecutionConfig)
    (lo : RealTimeOpportunity) :
    ExecEvent.lockAcquire ∉ (executeRealTimeOrder client cfg lo).2 := by
  intro h
  obtain ⟨tag, req, heq⟩ := executeRealTimeOrder_events_are_orders client cfg lo _ h
  simp at heq

/-- An attempt-start event in the loop's trace always belongs to an
opportunity of the processed list. -/
theorem attemptStart_mem_processOpportunities (client : Client)
    (fetchBook : String → Except String RawOrderBook) (cfg : ExecutionConfig) :
    ∀ (l : List ArbitrageOpportunity) (tp ti : ℚ) (opp : ArbitrageOpportunity),
      ExecEvent.attemptStart opp ∈ (processOpportunities client fetchBook cfg l tp ti).2.2.2 →
      opp ∈ l := by
  intro l
  induction l with
  | nil =>
    intro tp ti opp h
    simp [processOpportunities] at h
  | cons x rest ih =>
    intro tp ti opp h
    simp only [processOpportunities] at h
    set lo := analyzeAndValidateRealTime cfg.stopLossPct x (fetchBook x.buyMarket.pair)
      (fetchBook x.sellMarket.pair) with hlo
    set er := executeRealTimeOrder client cfg lo with her
    by_cases hv : lo.viable = false
    · rw [if_pos hv] at h
      exact List.mem_cons_of_mem x (ih _ _ _ h)
    · rw [if_neg hv] at h
      by_cases hm : cfg.maxPositionUSDT ≤
          (if er.1.success = true then ti + er.1.volumeExecuted * er.1.buyPrice / 83 else ti)
      · rw [if_pos hm] at h
        simp only [List.mem_cons] at h
        rcases h with h | h
        · injection h with h1
          rw [h1]
          exact List.mem_cons_self x rest
        · rw [her] at h
          exact absurd h (attemptStart_not_in_exec_events client cfg lo opp)
      · rw [if_neg hm] at h
        simp only [List.cons_append, List.mem_cons, List.mem_append] at h
        rcases h with h | h | h
        · injection h with h1
          rw [h1]
          exact List.mem_cons_self x rest
        · rw [her] at h
          exact absurd h (attemptStart_not_in_exec_events client cfg lo opp)
        · exact List.mem_cons_of_mem x (ih _ _ _ h)

/-- The loop never emits a lock event. -/
theorem lockAcquire_not_mem_processOpportunities (client : Client)
    (fetchBook : String → Except String RawOrderBook) (cfg : ExecutionConfig) :
    ∀ (l : List ArbitrageOpportunity) (tp ti : ℚ),
      ExecEvent.lockAcquire ∉ (processOpportunities client fetchBook cfg l tp ti).2.2.2 := by
  intro l
  induction l with
  | nil =>
    intro tp ti h
    simp [processOpportunities] at h
  | cons x rest ih =>
    intro tp ti h
    simp only [processOpportunities] at h
    set lo := analyzeAndValidateRealTime cfg.stopLossPct x (fetchBook x.buyMarket.pair)
      (fetchBook x.sellMarket.pair) with hlo
    set er := executeRealTimeOrder client cfg lo with her
    by_cases hv : lo.viable = false
    · rw [if_pos hv] at h
      exact ih _ _ h
    · rw [if_neg hv] at h
      by_cases hm : cfg.maxPositionUSDT ≤
          (if er.1.success = true then ti + er.1.volumeExecuted * er.1.buyPrice / 83 else ti)
      · rw [if_pos hm] at h
        simp only [List.mem_cons] at h
        rcases h with h | h
        · exact ExecEvent.noConfusion h
        · rw [her] at h
          exact absurd h (lockAcquire_not_in_exec_events client cfg lo)
      · rw [if_neg hm] at h
        simp only [List.cons_append, List.mem_cons, List.mem_append] at h
        rcases h with h | h | h
        · exact ExecEvent.noConfusion h
        · rw [her] at h
          exact absurd h (lockAcquire_not_in_exec_events client cfg lo)
        · exact ih _ _ h

/-- The revalidation of the `c7` books (ask `100@2000`, bid `110@2000`,
stop loss 1%) passes: the result is viable with volume 2000 regardless of
which stored opportunity it annotates. -/
theorem analyze_c7_books_viable (opp : ArbitrageOpportunity) :
    (analyzeAndValidateRealTime 1 opp (Except.ok c7BuyBook)
      (Except.ok c7SellBook)).viable = true := by
  norm_num [analyzeAndValidateRealTime, performQuickDepthAnalysis, parseLevelsAsc,
    parseLevelsDesc, posLevels, sortAsc, sortDesc, insertAsc, insertDesc, quickDepthWalk,
    getBestAsk, getBestBid, bestAskLoop, bestBidLoop, c7BuyBook, c7SellBook, List.filter]

/-- Stored opportunity with `"USDT"` only in the **sell**-market symbol. -/
def c10Opp : ArbitrageOpportunity :=
  ⟨"BTC", ⟨"BTCINR", "B-BTC_INR"⟩, ⟨"BTCUSDT", "B-BTC_USDT"⟩, 5, true⟩

/-- Order-book oracle matching `c10Opp`: the buy pair resolves to the ask
book, the sell pair to the bid book. -/
def c10Fetch : String → Except String RawOrderBook := fun p =>
  if p = "B-BTC_INR" then .ok c7BuyBook
  else if p = "B-BTC_USDT" then .ok c7SellBook
  else .error "unknown pair"

/-- Order-book oracle matching `c7Opp` (buy on the USDT pair). -/
def c2Fetch : String → Except String RawOrderBook := fun p =>
  if p = "B-BTC_USDT" then .ok c7BuyBook
  else if p = "B-BTC_INR" then .ok c7SellBook
  else .error "unknown pair"

theorem live_attempt_c10_mem :
    ExecEvent.attemptStart c10Opp ∈
      (liveExecuteSequentially c4Client c10Fetch cfgX [c10Opp]).2 := by
  have hv : (analyzeAndValidateRealTime cfgX.stopLossPct c10Opp
      (c10Fetch c10Opp.buyMarket.pair) (c10Fetch c10Opp.sellMarket.pair)).viable = true := by
    show (analyzeAndValidateRealTime 1 c10Opp (Except.ok c7BuyBook)
      (Except.ok c7SellBook)).viable = true
    exact analyze_c7_books_viable c10Opp
  have hfil : [c10Opp].filter
      (fun o => o.viable && (containsSubstr o.buyMarket.symbol "USDT" ||
        containsSubstr o.sellMarket.symbol "USDT")) = [c10Opp] := by
    rw [List.filter_cons_of_pos]
    · rfl
    · decide
  simp only [liveExecuteSequentially, hfil]
  rw [show sortOppDesc [c10Opp] = [c10Opp] from rfl]
  simp only [processOpportunities]
  rw [if_neg (by rw [hv]; simp)]
  split <;> simp

theorem engine_attempt_c10_not_mem :
    ExecEvent.attemptStart c10Opp ∉
      (engineExecute c4Client c10Fetch cfgX [c10Opp]).2 := by
  have hfil : [c10Opp].filter
      (fun o => o.viable && containsSubstr o.buyMarket.symbol "USDT") = [] := by
    rw [List.filter_cons_of_neg]
    · rfl
    · decide
  simp only [engineExecute, hfil]
  rw [show sortOppDesc [] = [] from rfl]
  simp [processOpportunities]

theorem engine_attempt_c7_mem :
    ExecEvent.attemptStart c7Opp ∈ (engineExecute c4Client c2Fetch cfgX [c7Opp]).2 := by
  have hv : (analyzeAndValidateRealTime cfgX.stopLossPct c7Opp
      (c2Fetch c7Opp.buyMarket.pair) (c2Fetch c7Opp.sellMarket.pair)).viable = true := by
    show (analyzeAndValidateRealTime 1 c7Opp (Except.ok c7BuyBook)
      (Except.ok c7SellBook)).viable = true
    exact analyze_c7_books_viable c7Opp
  have hfil : [c7Opp].filter
      (fun o => o.viable && containsSubstr o.buyMarket.symbol "USDT") = [c7Opp] := by
    rw [List.filter_cons_of_pos]
    · rfl
    · decide
  simp only [engineExecute, hfil]
  rw [show sortOppDesc [c7Opp] = [c7Opp] from rfl]
  simp only [processOpportunities]
  rw [if_neg (by rw [hv]; simp)]
  split <;> simp

/-- **C10.** The batch executor starts attempts only for viable
opportunities whose buy-market symbol contains `"USDT"`, the live sequential
executor for viable opportunities where either symbol contains `"USDT"`; and
at the concrete opportunity `c10Opp` (USDT only in the sell symbol) the live
path starts an attempt that the batch path silently skips. -/
theorem claim_C10_usdt_filter_asymmetry :
    (∀ (client : Client) (fetchBook : String → Except String RawOrderBook)
      (cfg : ExecutionConfig) (opps : List ArbitrageOpportunity) (opp : ArbitrageOpportunity),
      ExecEvent.attemptStart opp ∈ (engineExecute client fetchBook cfg opps).2 →
      opp.viable = true ∧ containsSubstr opp.buyMarket.symbol "USDT" = true) ∧
    (∀ (client : Client) (fetchBook : String → Except String RawOrderBook)
      (cfg : ExecutionConfig) (opps : List ArbitrageOpportunity) (opp : ArbitrageOpportunity),
      ExecEvent.attemptStart opp ∈ (liveExecuteSequentially client fetchBook cfg opps).2 →
      opp.viable = true ∧ (containsSubstr opp.buyMarket.symbol "USDT" = true ∨
        containsSubstr opp.sellMarket.symbol "USDT" = true)) ∧
    ExecEvent.attemptStart c10Opp ∈
      (liveExecuteSequentially c4Client c10Fetch cfgX [c10Opp]).2 ∧
    ExecEvent.attemptStart c10Opp ∉
      (engineExecute c4Client c10Fetch cfgX [c10Opp]).2 := by
  refine ⟨?_, ?_, live_attempt_c10_mem, engine_attempt_c10_not_mem⟩
  · intro client fetchBook cfg opps opp h
    simp only [engineExecute] at h
    have hmem := attemptStart_mem_processOpportunities client fetchBook cfg _ 0 0 opp h
    rw [mem_sortOppDesc, List.mem_filter] at hmem
    have hp := hmem.2
    simp only [Bool.and_eq_true] at hp
    exact hp
  · intro client fetchBook cfg opps opp h
    simp only [liveExecuteSequentially] at h
    have hmem := attemptStart_mem_processOpportunities client fetchBook cfg _ 0 0 opp h
    rw [mem_sortOppDesc, List.mem_filter] at hmem
    have hp := hmem.2
    simp only [Bool.and_eq_true, Bool.or_eq_true] at hp
    exact hp

/-- Witness for `claim_C10_usdt_filter_asymmetry`: applying the batch-side
necessary condition at the concrete batch run that starts an attempt for
`c7Opp`. -/
theorem claim_C10_witness :
    c7Opp.viable = true ∧ containsSubstr c7Opp.buyMarket.symbol "USDT" = true :=
  claim_C10_usdt_filter_asymmetry.1 c4Client c2Fetch cfgX [c7Opp] c7Opp engine_attempt_c7_mem

/-- **C2 counterexample.** The single-shot batch executor starts an
execution attempt (for `c7Opp`) while never acquiring any advisory lock:
its event trace contains an attempt start and no lock acquisition, so the
claimed process-wide lock shared by all execution paths does not exist. -/
theorem claim_C2_counterexample :
    ExecEvent.attemptStart c7Opp ∈ (engineExecute c4Client c2Fetch cfgX [c7Opp]).2 ∧
    ExecEvent.lockAcquire ∉ (engineExecute c4Client c2Fetch cfgX [c7Opp]).2 := by
  refine ⟨engine_attempt_c7_mem, ?_⟩
  simp only [engineExecute]
  exact lockAcquire_not_mem_processOpportunities c4Client c2Fetch cfgX _ 0 0

/-- **C2 amended.** Only the live detector's path acquires an advisory lock
(the per-detector mutex) before executing: the batch executor's trace never
contains a lock acquisition, while every non-empty `detectAndExecute` trace
begins with the lock acquisition (so the lock is held before any attempt of
that path starts). -/
theorem claim_C2_amended :
    (∀ (client : Client) (fetchBook : String → Except String RawOrderBook)
      (cfg : ExecutionConfig) (opps : List ArbitrageOpportunity),
      ExecEvent.lockAcquire ∉ (engineExecute client fetchBook cfg opps).2) ∧
    (∀ (client : Client) (fetchBook : String → Except String RawOrderBook)
      (cfg : ExecutionConfig) (ar : Except String (List ArbitrageOpportunity)),
      detectAndExecute client fetchBook cfg ar ≠ [] →
      (detectAndExecute client fetchBook cfg ar).head? = some ExecEvent.lockAcquire) := by
  constructor
  · intro client fetchBook cfg opps
    simp only [engineExecute]
    exact lockAcquire_not_mem_processOpportunities client fetchBook cfg _ 0 0
  · intro client fetchBook cfg ar h
    unfold detectAndExecute at h ⊢
    match ar with
    | .error e => simp at h
    | .ok opps =>
      simp only at h ⊢
      by_cases he : (opps.filter (fun o => o.viable)).isEmpty
      · rw [if_pos he] at h
        simp at h
      · rw [if_neg he]
        rfl

/-- Witness for `claim_C2_amended`: the live path at a concrete non-empty
run begins with the lock acquisition. -/
theorem claim_C2_amended_witness :
    detectAndExecute c4Client c2Fetch cfgX (Except.ok [c7Opp]) ≠ [] ∧
    (detectAndExecute c4Client c2Fetch cfgX (Except.ok [c7Opp])).head? =
      some ExecEvent.lockAcquire := by
  have hne : detectAndExecute c4Client c2Fetch cfgX (Except.ok [c7Opp]) ≠ [] := by
    unfold detectAndExecute
    simp only
    rw [if_neg (by decide)]
    simp
  exact ⟨hne, claim_C2_amended.2 c4Client c2Fetch cfgX (Except.ok [c7Opp]) hne⟩

/-! ## Rate cache (`pkg/exchange/rate_manager.go`) -/

/-- Go `types.ExchangeRate`, restricted to the fields `ConvertToINR` reads.
Time is modelled as an integer clock. -/
structure ExchangeRate where
  rate : ℚ
  timestamp : ℤ
deriving Repr, DecidableEq

/-- Go `types.ExchangeRateCache`: the `Rates` map as an association list;
`lookup` finds the most recent insertion, matching map-update semantics. -/
structure ExchangeRateCache where
  rates : List (String × ExchangeRate)
deriving Repr, DecidableEq

/-- `RateManager.ConvertToINR`: `"INR"` passes through; otherwise a cache
entry younger than `cacheDuration` is used without fetching; otherwise
`fetchExchangeRate` (the oracle argument) runs, its failure propagates with
no cache write, and its success is written to the cache with the current
timestamp.  The result carries the converted price, the updated cache, and
whether an upstream fetch happened. -/
def convertToINR (cacheDuration now : ℤ) (fetchRate : String → Except String ℚ)
    (cache : ExchangeRateCache) (price : ℚ) (fromCurrency : String) :
    Except String ℚ × ExchangeRateCache × Bool :=
  if fromCurrency = "INR" then (.ok price, cache, false)
  else
    let cacheKey := fromCurrency ++ "_INR"
    let doFetch : Except String ℚ × ExchangeRateCache × Bool :=
      match fetchRate fromCurrency with
      | .error e => (.error e, cache, true)
      | .ok r => (.ok (price * r), ⟨(cacheKey, ⟨r, now⟩) :: cache.rates⟩, true)
    match cache.rates.lookup cacheKey with
    | some rate =>
      if now - rate.timestamp < cacheDuration then (.ok (price * rate.rate), cache, false)
      else doFetch
    | none => doFetch

/-- **C8.** The rate cache is idempotent within the TTL window: a successful
fetch at time `now` caches the rate under the pair key with timestamp `now`;
any conversion call finding a cache entry with `now - fetchedAt <
cacheDuration` performs no upstream fetch, returns the input price times the
cached rate, and leaves the cache unchanged; and an entry is consulted
exactly while `now - fetchedAt < cacheDuration` — a stale or missing entry
always triggers a fetch. -/
theorem claim_C8_rate_cache_ttl (cacheDuration now : ℤ)
    (fetchRate : String → Except String ℚ) (cache : ExchangeRateCache)
    (price : ℚ) (fromCurrency : String) (hc : fromCurrency ≠ "INR") :
    (∀ r t, cache.rates.lookup (fromCurrency ++ "_INR") = some ⟨r, t⟩ →
      now - t < cacheDuration →
      convertToINR cacheDuration now fetchRate cache price fromCurrency =
        (.ok (price * r), cache, false)) ∧
    (∀ r t, cache.rates.lookup (fromCurrency ++ "_INR") = some ⟨r, t⟩ →
      ¬ (now - t < cacheDuration) →
      (convertToINR cacheDuration now fetchRate cache price fromCurrency).2.2 = true) ∧
    (cache.rates.lookup (fromCurrency ++ "_INR") = none →
      (convertToINR cacheDuration now fetchRate cache price fromCurrency).2.2 = true) ∧
    (∀ rr, fetchRate fromCurrency = .ok rr →
      (∀ r t, cache.rates.lookup (fromCurrency ++ "_INR") = some ⟨r, t⟩ →
        ¬ (now - t < cacheDuration)) →
      ((convertToINR cacheDuration now fetchRate cache price fromCurrency).2.1.rates.lookup
          (fromCurrency ++ "_INR") = some ⟨rr, now⟩ ∨
        cache.rates.lookup (fromCurrency ++ "_INR") ≠ none ∧
          (∃ r t, cache.rates.lookup (fromCurrency ++ "_INR") = some ⟨r, t⟩ ∧
            now - t < cacheDuration))) := by
  refine ⟨?_, ?_, ?_, ?_⟩
  · intro r t hl hfresh
    unfold convertToINR
    rw [if_neg hc]
    simp only [hl]
    rw [if_pos hfresh]
  · intro r t hl hstale
    unfold convertToINR
    rw [if_neg hc]
    simp only [hl]
    rw [if_neg hstale]
    cases hf : fetchRate fromCurrency <;> simp [hf]
  · intro hl
    unfold convertToINR
    rw [if_neg hc]
    simp only [hl]
    cases hf : fetchRate fromCurrency <;> simp [hf]
  · intro rr hf hstale
    left
    unfold convertToINR
    rw [if_neg hc]
    cases hl : cache.rates.lookup (fromCurrency ++ "_INR") with
    | none =>
      simp only [hl, hf]
      simp [List.lookup]
    | some rate =>
      have := hstale rate.rate rate.timestamp (by rw [hl])
      simp only [hl]
      rw [if_neg this]
      simp only [hf]
      simp [List.lookup]

/-- Witness for `claim_C8_rate_cache_ttl`: a concrete fresh hit returns the
cached product with no fetch. -/
theorem claim_C8_witness :
    (⟨[("USDT_INR", ⟨83, 100⟩)]⟩ : ExchangeRateCache).rates.lookup "USDT_INR" =
      some ⟨83, 100⟩ ∧
    convertToINR 300 200 (fun _ => .error "offline")
        ⟨[("USDT_INR", ⟨83, 100⟩)]⟩ 2 "USDT" =
      (.ok (2 * 83), ⟨[("USDT_INR", ⟨83, 100⟩)]⟩, false) := by
  refine ⟨by simp [List.lookup], ?_⟩
  exact (claim_C8_rate_cache_ttl 300 200 (fun _ => .error "offline")
      ⟨[("USDT_INR", ⟨83, 100⟩)]⟩ 2 "USDT" (by decide)).1 83 100
    (by simp [List.lookup]) (by decide)

/-! ## Market universe builder (`ExtractArbitragePairs` of the pairs
analyzer) -/

/-- Go `types.MarketDetail`, restricted to the fields the extractor reads
(`BaseCurrencyShortName` is the quote currency in the spec's terminology). -/
structure MarketDetail where
  symbol : String
  pair : String
  baseCurrency : String
  targetCurrency : String
  status : String
deriving Repr, DecidableEq

/-- Go `types.PairInfo` (numeric minimums dropped — the extractor only
copies them). -/
structure PairInfo where
  symbol : String
  pair : String
  baseCurrency : String
  targetCurrency : String
  status : String
deriving Repr, DecidableEq

/-- The `PairInfo` built from a market inside the extraction loop. -/
def toPairInfo (m : MarketDetail) : PairInfo :=
  ⟨m.symbol, m.pair, m.baseCurrency, m.targetCurrency, m.status⟩

/-- The configuration fields `isValidCurrency` reads. -/
structure PairsConfig where
  validCurrencies : List String
  enableAllPairs : Bool
deriving Repr, DecidableEq

/-- `Analyzer.isValidCurrency`: everything is valid under the all-pairs
override, otherwise membership in the allow-list. -/
def isValidCurrency (cfg : PairsConfig) (currency : String) : Bool :=
  cfg.enableAllPairs || cfg.validCurrencies.contains currency

/-- Go `types.ArbitragePairs` (timestamp dropped). -/
structure ArbitragePairs where
  targetCurrency : String
  pairs : List PairInfo
deriving Repr, DecidableEq

/-- The group the first loop of `ExtractArbitragePairs` accumulates for one
target currency: active markets with that target, in scan order. -/
def groupFor (markets : List MarketDetail) (target : String) : List PairInfo :=
  (markets.filter (fun m => m.status = "active" && m.targetCurrency = target)).map toPairInfo

/-- The second loop of `ExtractArbitragePairs` for one target currency:
skip groups of fewer than two pairs, filter by the currency allow-list, and
keep the group when at least two valid pairs remain. -/
def extractGroup (cfg : PairsConfig) (markets : List MarketDetail) (target : String) :
    Option ArbitragePairs :=
  let pairs := groupFor markets target
  if pairs.length < 2 then none
  else
    let validPairs := pairs.filter (fun p => isValidCurrency cfg p.baseCurrency)
    if 2 ≤ validPairs.length then some ⟨target, validPairs⟩ else none

/-- `ExtractArbitragePairs`: propagate the provider error, otherwise build
the groups for every target currency appearing among active markets (an
empty list is a normal result, not an error). -/
def extractArbitragePairs (cfg : PairsConfig)
    (fetch : Except String (List MarketDetail)) : Except String (List ArbitragePairs) :=
  match fetch with
  | .error e => .error e
  | .ok markets =>
    .ok ((((markets.filter (fun m => m.status = "active")).map
      (fun m => m.targetCurrency)).dedup).filterMap (extractGroup cfg markets))

/-- Allow-list of quote currencies from the source's `DefaultConfig`. -/
def c9cfg : PairsConfig :=
  ⟨["INR", "USDT", "BTC", "ETH", "BNB", "BUSD", "USDC"], false⟩

/-- Two active markets for coin `ABC`, both quoted in `USDT`. -/
def c9markets : List MarketDetail :=
  [⟨"ABCUSDT", "B-ABC_USDT", "USDT", "ABC", "active"⟩,
   ⟨"I-ABCUSDT", "I-ABC_USDT", "USDT", "ABC", "active"⟩]

/-- **C9 counterexample.** The extractor returns a candidate group for `ABC`
from two active markets sharing the single quote currency `USDT`: the code
requires only two markets on the allow-list, not two *distinct* quote
currencies, so the claimed iff fails at this input. -/
theorem claim_C9_counterexample :
    (extractGroup c9cfg c9markets "ABC").isSome = true ∧
    ((groupFor c9markets "ABC").map PairInfo.baseCurrency).dedup = ["USDT"] := by
  decide

/-- **C9 amended.** The builder returns a candidate group for a target
currency iff, after restricting to active markets with that target and
(unless the all-pairs override is set) to quote currencies on the
allow-list, at least two markets remain — their quote currencies need not be
distinct; the returned group consists of exactly those markets; provider
errors propagate, and an empty result set is returned without error. -/
theorem claim_C9_amended (cfg : PairsConfig) (markets : List MarketDetail) (target : String) :
    ((extractGroup cfg markets target).isSome = true ↔
      2 ≤ ((groupFor markets target).filter
        (fun p => isValidCurrency cfg p.baseCurrency)).length) ∧
    (∀ g, extractGroup cfg markets target = some g →
      g = ⟨target, (groupFor markets target).filter
        (fun p => isValidCurrency cfg p.baseCurrency)⟩) ∧
    (∀ e, extractArbitragePairs cfg (.error e) = .error e) ∧
    (∀ ms, ∃ gs, extractArbitragePairs cfg (.ok ms) = .ok gs) := by
  refine ⟨?_, ?_, fun e => rfl, fun ms => ⟨_, rfl⟩⟩
  · unfold extractGroup
    by_cases h2 : (groupFor markets target).length < 2
    · rw [if_pos h2]
      simp only [Option.isSome_none]
      constructor
      · intro h
        simp at h
      · intro h
        have hle := List.length_filter_le
          (fun p => isValidCurrency cfg p.baseCurrency) (groupFor markets target)
        omega
    · rw [if_neg h2]
      by_cases hv : 2 ≤ ((groupFor markets target).filter
          (fun p => isValidCurrency cfg p.baseCurrency)).length
      · rw [if_pos hv]
        simp [hv]
      · rw [if_neg hv]
        simp [hv]
  · intro g hg
    unfold extractGroup at hg
    by_cases h2 : (groupFor markets target).length < 2
    · rw [if_pos h2] at hg
      exact absurd hg (by simp)
    · rw [if_neg h2] at hg
      by_cases hv : 2 ≤ ((groupFor markets target).filter
          (fun p => isValidCurrency cfg p.baseCurrency)).length
      · rw [if_pos hv] at hg
        simp at hg
        rw [← hg]
      · rw [if_neg hv] at hg
        exact absurd hg (by simp)

/-- Witness for `claim_C9_amended` at the concrete two-market input. -/
theorem claim_C9_amended_witness :
    2 ≤ ((groupFor c9markets "ABC").filter
      (fun p => isValidCurrency c9cfg p.baseCurrency)).length ∧
    (extractGroup c9cfg c9markets "ABC").isSome = true :=
  ⟨by decide, (claim_C9_amended c9cfg c9markets "ABC").1.mpr (by decide)⟩

end Cdcx
